import Mathlib

/-
Verification of the mock clock engine of the clock repository.

The repository contains several parallel implementations of the same
engine.  We embed the ones the claims refer to:

* namespace Mk  : the sort-based mock of mock.go (type Mock and type
  UnsynchronizedMock share all of the time and registry semantics
  modelled here; they differ only in the synchronization counters,
  modelled in namespace Ctl, and in the locking discipline of
  internalTimer.Tick, modelled in namespace Scripts) together with the
  Timer.Stop / Timer.Reset methods of timer.go.
* namespace P3  : the hook-based mockClock variant (src/unnamed/part_003).
* namespace Ctl : the synchronization counters of UnsynchronizedMock
  (ExpectStarts, ExpectConfirms, NewTimer, NewTicker, Confirm).
* namespace Scripts : the lock/callback ordering of the two
  internalTimer.Tick implementations in mock.go.

Time values (time.Time and time.Duration) are embedded as Int
(nanoseconds since the Unix epoch).  Channels are embedded as the list
of buffered values plus a capacity.  AfterFunc callbacks are opaque
consumer code: they receive control but do not touch the clock state in
this sequential model.  Every fire of an event is recorded in a log,
which is the observable notion of firing used by the theorems.
-/

namespace ClockSpec

/-- A timed event object: models the mock Timer and Ticker structs
(fields next, d, c, fn, stopped) plus registry membership (whether the
object currently sits in the m.timers slice). -/
structure TEvent where
  id : Nat
  isTicker : Bool
  next : Int
  period : Int
  ch : List Int
  cap : Nat
  hasFn : Bool
  stopped : Bool
  registered : Bool
  deriving Repr, DecidableEq

/-- One fire of an event: its id, the fireAt the event had when it was
selected, and the clock value it observed while firing. -/
structure LogEntry where
  id : Nat
  fireAt : Int
  obsNow : Int
  deriving Repr, DecidableEq

/-- Mock clock state: current time, all event objects ever created (the
m.timers registry is the subset with registered = true), the fire log
and a fresh-id counter. -/
structure MState where
  now : Int
  events : List TEvent
  log : List LogEntry
  nextId : Nat
  deriving Repr, DecidableEq

/-- NewMock: current time on initialization is the Unix epoch. -/
def initMState : MState := { now := 0, events := [], log := [], nextId := 0 }

/-- The m.timers slice: the event objects currently registered. -/
def registry (s : MState) : List TEvent := s.events.filter (fun e => e.registered)

/-- Insertion into a list that is sorted by next. -/
def insertByNext (e : TEvent) : List TEvent → List TEvent
  | [] => [e]
  | x :: xs => if e.next ≤ x.next then e :: x :: xs else x :: insertByNext e xs

/-- sort.Sort(m.timers) with Less comparing Next(): a sort of the
registry by the next field (the source sort is unstable, so only the
multiset and the minimality of the head are meaningful). -/
def sortByNext : List TEvent → List TEvent
  | [] => []
  | x :: xs => insertByNext x (sortByNext xs)

/-- Overwrite the event object carrying the id of t2 (an in-place
pointer update in Go). -/
def updateEvent (evs : List TEvent) (t2 : TEvent) : List TEvent :=
  evs.map (fun e => if e.id = t2.id then t2 else e)

/-- Non-blocking channel send (select with default): drop the value if
the buffer is full. -/
def chanTrySend (ch : List Int) (cp : Nat) (v : Int) : List Int :=
  if ch.length < cp then ch ++ [v] else ch

namespace Mk

/-- internalTimer.Tick / internalTicker.Tick of mock.go.
Ticker: select-send the observed now (drop if full), then
next = now + d; the object stays registered.
Timer: run fn (opaque) or send now on the capacity-1 channel, then
removeClockTimer and stopped = true.  The timer send is blocking in Go,
but in the sequential semantics modelled here a timer fires at most once
and its capacity-1 buffer is empty at that moment, so it is an append. -/
def fireEvent (t : TEvent) (s : MState) : MState :=
  if t.isTicker then
    { s with
      events :=
        updateEvent s.events ({ t with ch := chanTrySend t.ch t.cap s.now, next := s.now + t.period }),
      log := s.log ++ [{ id := t.id, fireAt := t.next, obsNow := s.now }] }
  else
    { s with
      events :=
        updateEvent s.events
          ({ t with ch := if t.hasFn then t.ch else t.ch ++ [s.now],
                    stopped := true, registered := false }),
      log := s.log ++ [{ id := t.id, fireAt := t.next, obsNow := s.now }] }

/-- Mock.runNextTimer of mock.go: sort the registry, exit if it is empty
or the earliest event fires after max, otherwise move now to that
fireAt and fire the event. -/
def runNextTimer (mx : Int) (s : MState) : Option MState :=
  match sortByNext (registry s) with
  | [] => none
  | t :: _ =>
    if mx < t.next then none
    else some (fireEvent t { s with now := t.next })

/-- The advance loop of Mock.Add / Mock.Set, with fuel standing in for
the unbounded Go for-loop (none means the fuel ran out before the loop
exited). -/
def addLoop : Nat → Int → MState → Option MState
  | 0, _, _ => none
  | fuel + 1, target, s =>
    match runNextTimer target s with
    | none => some s
    | some s1 => addLoop fuel target s1

/-- Mock.Add: target = now + d, run the loop, then now = target
unconditionally. -/
def mockAdd (fuel : Nat) (d : Int) (s : MState) : Option MState :=
  (addLoop fuel (s.now + d) s).map (fun s1 => { s1 with now := s.now + d })

/-- Mock.Set: run the loop up to t, then now = t unconditionally. -/
def mockSet (fuel : Nat) (t : Int) (s : MState) : Option MState :=
  (addLoop fuel t s).map (fun s1 => { s1 with now := t })

/-- Mock.Timer: a capacity-1 channel, next = now + d, appended to the
registry. -/
def mockTimer (d : Int) (s : MState) : MState :=
  { s with
    events := s.events ++ [{ id := s.nextId, isTicker := false, next := s.now + d,
                             period := 0, ch := [], cap := 1, hasFn := false,
                             stopped := false, registered := true }],
    nextId := s.nextId + 1 }

/-- Mock.Ticker: a capacity-1 channel, next = now + d, period d,
appended to the registry. -/
def mockTicker (d : Int) (s : MState) : MState :=
  { s with
    events := s.events ++ [{ id := s.nextId, isTicker := true, next := s.now + d,
                             period := d, ch := [], cap := 1, hasFn := false,
                             stopped := false, registered := true }],
    nextId := s.nextId + 1 }

/-- Mock.AfterFunc: a Timer whose channel is unused and whose callback
is opaque consumer code. -/
def mockAfterFunc (d : Int) (s : MState) : MState :=
  { s with
    events := s.events ++ [{ id := s.nextId, isTicker := false, next := s.now + d,
                             period := 0, ch := [], cap := 1, hasFn := true,
                             stopped := false, registered := true }],
    nextId := s.nextId + 1 }

/-- Timer.Stop of timer.go: registered := not stopped, removeClockTimer,
stopped = true, return the old registration state. -/
def timerStop (i : Nat) (s : MState) : Bool × MState :=
  match s.events.find? (fun e => e.id == i) with
  | none => (false, s)
  | some e =>
    (!e.stopped,
     { s with events := updateEvent s.events ({ e with stopped := true, registered := false }) })

/-- Timer.Reset of timer.go: next = now + d, re-append only when the
timer was stopped (otherwise its registry membership is unchanged),
stopped = false, return the old registration state. -/
def timerReset (i : Nat) (d : Int) (s : MState) : Bool × MState :=
  match s.events.find? (fun e => e.id == i) with
  | none => (false, s)
  | some e =>
    (!e.stopped,
     { s with
       events :=
         updateEvent s.events
           ({ e with next := s.now + d, stopped := false,
                     registered := e.stopped || e.registered }) })

/-- Ticker.Stop of timer.go: removeClockTimer. -/
def tickerStop (i : Nat) (s : MState) : MState :=
  match s.events.find? (fun e => e.id == i) with
  | none => s
  | some e => { s with events := updateEvent s.events ({ e with registered := false }) }

/-- A sequence of Add calls, each with its own duration and fuel. -/
def addSeq : List (Int × Nat) → MState → Option MState
  | [], s => some s
  | (d, fuel) :: rest, s =>
    match mockAdd fuel d s with
    | none => none
    | some s1 => addSeq rest s1

/-- One creation step of the claim-C1 scenario. -/
inductive CreateOp where
  | timer : Int → CreateOp
  | ticker : Int → CreateOp
  deriving Repr, DecidableEq

def applyCreate (s : MState) : CreateOp → MState
  | .timer d => mockTimer d s
  | .ticker d => mockTicker d s

def createAll (s : MState) (ops : List CreateOp) : MState := ops.foldl applyCreate s

/-- Every ticker in the creation sequence has a positive period (a
nonpositive period makes the Go advance loop diverge). -/
def CreateOp.posPeriod : CreateOp → Bool
  | .timer _ => true
  | .ticker d => decide (0 < d)

/-- Distinct event ids (Go guarantees this through pointer identity). -/
def idsNodup (s : MState) : Prop := (s.events.map (fun e => e.id)).Nodup

/-- The fresh-id counter really is fresh. -/
def idsBounded (s : MState) : Prop := ∀ e ∈ s.events, e.id < s.nextId

/-- Every registered ticker has a positive period. -/
def tickersPosReg (s : MState) : Prop :=
  ∀ e ∈ s.events, e.registered = true → e.isTicker = true → 0 < e.period

instance (s : MState) : Decidable (idsNodup s) := by unfold idsNodup; infer_instance
instance (s : MState) : Decidable (idsBounded s) := by unfold idsBounded; infer_instance
instance (s : MState) : Decidable (tickersPosReg s) := by unfold tickersPosReg; infer_instance

/-- Upper bound on how many times one event can still fire before the
loop target is passed. -/
def weightE (target : Int) (e : TEvent) : Nat :=
  if e.registered = true then
    if target < e.next then 0
    else if e.isTicker then (target - e.next).toNat + 1 else 1
  else 0

/-- Upper bound on the number of loop iterations that still fire. -/
def measureS (target : Int) (s : MState) : Nat :=
  (s.events.map (weightE target)).sum

end Mk

namespace P3

/-- Outcome of one mockClock.runNextTimer call in the hook-based
variant: the loop may exit, fire one event, or block forever on a full
channel send. -/
inductive ROut where
  | exitLoop : ROut
  | blocked : ROut
  | fired : MState → ROut
  deriving Repr, DecidableEq

/-- NewMock of part_003: epoch start (hooks are opaque consumer
callbacks and are not part of the clock state modelled here). -/
def init : MState := initMState

/-- internalTimer.Tick / internalTicker.Tick of part_003.  The ticker
send (t.c <- now) is a plain blocking send on the capacity-1000 buffer:
none models the advancing goroutine blocking on a full buffer.  The
timer send is likewise blocking on its capacity-1 buffer. -/
def fireEvent (t : TEvent) (s : MState) : Option MState :=
  if t.isTicker then
    if t.ch.length < t.cap then
      some { s with
        events :=
          updateEvent s.events ({ t with ch := t.ch ++ [s.now], next := s.now + t.period }),
        log := s.log ++ [{ id := t.id, fireAt := t.next, obsNow := s.now }] }
    else none
  else
    if t.hasFn ∨ t.ch.length < t.cap then
      some { s with
        events :=
          updateEvent s.events
            ({ t with ch := if t.hasFn then t.ch else t.ch ++ [s.now],
                      stopped := true, registered := false }),
        log := s.log ++ [{ id := t.id, fireAt := t.next, obsNow := s.now }] }
    else none

/-- mockClock.runNextTimer of part_003. -/
def runNextTimer (mx : Int) (s : MState) : ROut :=
  match sortByNext (registry s) with
  | [] => .exitLoop
  | t :: _ =>
    if mx < t.next then .exitLoop
    else
      match fireEvent t { s with now := t.next } with
      | some s1 => .fired s1
      | none => .blocked

/-- The advance loop of mockClock.Add / mockClock.Set. -/
def addLoop : Nat → Int → MState → Option MState
  | 0, _, _ => none
  | fuel + 1, target, s =>
    match runNextTimer target s with
    | .exitLoop => some s
    | .blocked => none
    | .fired s1 => addLoop fuel target s1

/-- mockClock.Add of part_003: panics (none) on a negative duration,
otherwise runs the loop and ends with now = now + d. -/
def mockAdd (fuel : Nat) (d : Int) (s : MState) : Option MState :=
  if d < 0 then none
  else (addLoop fuel (s.now + d) s).map (fun s1 => { s1 with now := s.now + d })

/-- mockClock.Set of part_003: panics (none) when the target is in the
past, otherwise runs the loop and ends with now = t. -/
def mockSet (fuel : Nat) (t : Int) (s : MState) : Option MState :=
  if s.now > t then none
  else (addLoop fuel t s).map (fun s1 => { s1 with now := t })

/-- mockClock.timerInternal of part_003: when the expiry is not after
now, the current time is sent on the capacity-1 channel immediately and
the timer is never put into the registry; otherwise it is registered. -/
def timerNew (d : Int) (s : MState) : MState :=
  if s.now + d ≤ s.now then
    { s with
      events := s.events ++ [{ id := s.nextId, isTicker := false, next := s.now + d,
                               period := 0, ch := [s.now], cap := 1, hasFn := false,
                               stopped := false, registered := false }],
      nextId := s.nextId + 1 }
  else
    { s with
      events := s.events ++ [{ id := s.nextId, isTicker := false, next := s.now + d,
                               period := 0, ch := [], cap := 1, hasFn := false,
                               stopped := false, registered := true }],
      nextId := s.nextId + 1 }

/-- mockClock.Ticker of part_003: a capacity-1000 buffered channel. -/
def tickerNew (d : Int) (s : MState) : MState :=
  { s with
    events := s.events ++ [{ id := s.nextId, isTicker := true, next := s.now + d,
                             period := d, ch := [], cap := 1000, hasFn := false,
                             stopped := false, registered := true }],
    nextId := s.nextId + 1 }

/-- Timer.Stop of part_003. -/
def timerStop (i : Nat) (s : MState) : Bool × MState :=
  match s.events.find? (fun e => e.id == i) with
  | none => (false, s)
  | some e =>
    (!e.stopped,
     { s with events := updateEvent s.events ({ e with stopped := true, registered := false }) })

/-- Timer.Reset of part_003: next = now + d, re-append only when the
timer was stopped (a never-registered, non-stopped timer stays out of
the registry), stopped = false, return the old registration state. -/
def timerReset (i : Nat) (d : Int) (s : MState) : Bool × MState :=
  match s.events.find? (fun e => e.id == i) with
  | none => (false, s)
  | some e =>
    (!e.stopped,
     { s with
       events :=
         updateEvent s.events
           ({ e with next := s.now + d, stopped := false,
                     registered := e.stopped || e.registered }) })

/-- Ticker.Stop of part_003: removeClockTimer. -/
def tickerStop (i : Nat) (s : MState) : MState :=
  match s.events.find? (fun e => e.id == i) with
  | none => s
  | some e => { s with events := updateEvent s.events ({ e with registered := false }) }

/-- Ticker.Reset of part_003: new duration and next = now + dur; a
deregistered ticker is not re-inserted. -/
def tickerReset (i : Nat) (dur : Int) (s : MState) : MState :=
  match s.events.find? (fun e => e.id == i) with
  | none => s
  | some e =>
    { s with events := updateEvent s.events ({ e with period := dur, next := s.now + dur }) }

/-- A public operation on the hook-based mock, with explicit fuel for
the advance loops. -/
inductive Op where
  | add : Int → Nat → Op
  | set : Int → Nat → Op
  | timer : Int → Op
  | ticker : Int → Op
  | timerStopOp : Nat → Op
  | timerResetOp : Nat → Int → Op
  | tickerStopOp : Nat → Op
  | tickerResetOp : Nat → Int → Op
  deriving Repr, DecidableEq

def step (s : MState) : Op → Option MState
  | .add d fuel => mockAdd fuel d s
  | .set t fuel => mockSet fuel t s
  | .timer d => some (timerNew d s)
  | .ticker d => some (tickerNew d s)
  | .timerStopOp i => some (timerStop i s).2
  | .timerResetOp i d => some (timerReset i d s).2
  | .tickerStopOp i => some (tickerStop i s)
  | .tickerResetOp i d => some (tickerReset i d s)

def runOps (ops : List Op) (s : MState) : Option MState :=
  match ops with
  | [] => some s
  | op :: rest =>
    match step s op with
    | none => none
    | some s1 => runOps rest s1

end P3

namespace Ctl

/-- The synchronization counters of UnsynchronizedMock: the two expected
counters, the recent (surplus) counters, the two WaitGroup counters, the
optional fail-fast sink (tForFail) and how many test failures it has
reported. -/
structure CState where
  expectingStarts : Int
  recentTimers : Int
  wgStarts : Int
  expectingConfirms : Int
  recentConfirms : Int
  wgConfirms : Int
  failFast : Bool
  failures : Nat
  deriving Repr, DecidableEq

def initC (failFast : Bool) : CState :=
  { expectingStarts := 0, recentTimers := 0, wgStarts := 0,
    expectingConfirms := 0, recentConfirms := 0, wgConfirms := 0,
    failFast := failFast, failures := 0 }

/-- sync.WaitGroup.Add: panics (none) when the counter would go
negative. -/
def wgAdd (c delta : Int) : Option Int :=
  if c + delta < 0 then none else some (c + delta)

/-- UnsynchronizedMock.ExpectStarts. -/
def expectStarts (tc : Int) (s : CState) : Option CState :=
  (wgAdd s.wgStarts (tc - s.recentTimers)).map fun w =>
    { s with expectingStarts := s.expectingStarts + (tc - s.recentTimers),
             wgStarts := w, recentTimers := 0 }

/-- UnsynchronizedMock.ExpectConfirms. -/
def expectConfirms (cc : Int) (s : CState) : Option CState :=
  (wgAdd s.wgConfirms (cc - s.recentConfirms)).map fun w =>
    { s with expectingConfirms := s.expectingConfirms + (cc - s.recentConfirms),
             wgConfirms := w, recentConfirms := 0 }

/-- The counter bookkeeping of UnsynchronizedMock.NewTimer. -/
def regTimer (s : CState) : Option CState :=
  if s.expectingStarts > 0 then
    (wgAdd s.wgStarts (-1)).map fun w =>
      { s with expectingStarts := s.expectingStarts - 1, wgStarts := w }
  else if s.failFast then some { s with failures := s.failures + 1 }
  else some { s with recentTimers := s.recentTimers + 1 }

/-- The counter bookkeeping of UnsynchronizedMock.NewTicker: note the
unconditional recentTimers increment before the branch. -/
def regTicker (s : CState) : Option CState :=
  let s0 := { s with recentTimers := s.recentTimers + 1 }
  if s0.expectingStarts > 0 then
    (wgAdd s0.wgStarts (-1)).map fun w =>
      { s0 with expectingStarts := s0.expectingStarts - 1, wgStarts := w }
  else if s0.failFast then some { s0 with failures := s0.failures + 1 }
  else some { s0 with recentTimers := s0.recentTimers + 1 }

/-- UnsynchronizedMock.Confirm. -/
def confirm (s : CState) : Option CState :=
  if s.expectingConfirms > 0 then
    (wgAdd s.wgConfirms (-1)).map fun w =>
      { s with expectingConfirms := s.expectingConfirms - 1, wgConfirms := w }
  else if s.failFast then some { s with failures := s.failures + 1 }
  else some { s with recentConfirms := s.recentConfirms + 1 }

/-- A synchronization-controller operation. -/
inductive COp where
  | expectStartsOp : Int → COp
  | expectConfirmsOp : Int → COp
  | regTimerOp : COp
  | regTickerOp : COp
  | confirmOp : COp
  deriving Repr, DecidableEq

def cstep (s : CState) : COp → Option CState
  | .expectStartsOp n => expectStarts n s
  | .expectConfirmsOp n => expectConfirms n s
  | .regTimerOp => regTimer s
  | .regTickerOp => regTicker s
  | .confirmOp => confirm s

def runC (ops : List COp) (s : CState) : Option CState :=
  match ops with
  | [] => some s
  | op :: rest =>
    match cstep s op with
    | none => none
    | some s1 => runC rest s1

/-- The controller invariant: the outstanding-expectation counters and
the surplus counters are non-negative, and each WaitGroup counter
tracks its expectation counter exactly. -/
def inv (s : CState) : Prop :=
  0 ≤ s.expectingStarts ∧ 0 ≤ s.expectingConfirms ∧
  s.wgStarts = s.expectingStarts ∧ s.wgConfirms = s.expectingConfirms ∧
  0 ≤ s.recentTimers ∧ 0 ≤ s.recentConfirms

instance (s : CState) : Decidable (inv s) := by unfold inv; infer_instance

end Ctl

namespace Scripts

/-- The atomic steps of an internalTimer.Tick implementation, in source
order: mutex operations on the mock lock, the invocation of the
AfterFunc callback, and the registry bookkeeping. -/
inductive Act where
  | lockMu : Act
  | unlockMu : Act
  | callFn : Act
  | removeSelf : Act
  | setStopped : Act
  deriving Repr, DecidableEq

/-- internalTimer.Tick of the Mock variant of mock.go (fn branch):
mu.Lock(); fn(); removeClockTimer; stopped = true; mu.Unlock(). -/
def mockTickFn : List Act :=
  [.lockMu, .callFn, .removeSelf, .setStopped, .unlockMu]

/-- internalTimer.Tick of the UnsynchronizedMock variant of mock.go
(fn branch): mu.Lock(); mu.Unlock(); fn(); mu.Lock();
removeClockTimer; stopped = true; mu.Unlock(). -/
def unsyncTickFn : List Act :=
  [.lockMu, .unlockMu, .callFn, .lockMu, .removeSelf, .setStopped, .unlockMu]

/-- Whether the mock mutex is held at the moment the callback is
invoked, starting from lock depth d.  Timer.Reset acquires the same
non-reentrant mutex, so a callback invoked while it is held deadlocks
when it calls Reset. -/
def heldAtCallFn : List Act → Nat → Bool
  | [], _ => false
  | .lockMu :: r, d => heldAtCallFn r (d + 1)
  | .unlockMu :: r, d => heldAtCallFn r (d - 1)
  | .callFn :: _, d => decide (0 < d)
  | .removeSelf :: r, d => heldAtCallFn r d
  | .setStopped :: r, d => heldAtCallFn r d

end Scripts


/-! ### Helper lemmas: sorting, registry and event update -/

theorem perm_insertByNext (e : TEvent) (l : List TEvent) :
    List.Perm (insertByNext e l) (e :: l) := by
  induction l with
  | nil => simp [insertByNext]
  | cons x xs ih =>
    unfold insertByNext
    split
    · exact List.Perm.refl _
    · exact ((ih.cons x).trans (List.Perm.swap e x xs))

theorem perm_sortByNext (l : List TEvent) : List.Perm (sortByNext l) l := by
  induction l with
  | nil => simp [sortByNext]
  | cons x xs ih =>
    unfold sortByNext
    exact (perm_insertByNext x (sortByNext xs)).trans (ih.cons x)

theorem mem_sortByNext {x : TEvent} {l : List TEvent} : x ∈ sortByNext l ↔ x ∈ l :=
  (perm_sortByNext l).mem_iff

theorem pairwise_insertByNext {e : TEvent} {l : List TEvent}
    (h : l.Pairwise (fun a b => a.next ≤ b.next)) :
    (insertByNext e l).Pairwise (fun a b => a.next ≤ b.next) := by
  induction l with
  | nil => simp [insertByNext]
  | cons x xs ih =>
    unfold insertByNext
    rcases List.pairwise_cons.mp h with ⟨hx, hxs⟩
    split
    · rename_i hle
      refine List.pairwise_cons.mpr ⟨?_, h⟩
      intro b hb
      rcases List.mem_cons.mp hb with hb | hb
      · exact hb ▸ hle
      · exact le_trans hle (hx b hb)
    · rename_i hgt
      refine List.pairwise_cons.mpr ⟨?_, ih hxs⟩
      intro b hb
      rcases List.mem_cons.mp ((perm_insertByNext e xs).mem_iff.mp hb) with hb1 | hb1
      · exact hb1 ▸ le_of_not_le hgt
      · exact hx b hb1

theorem pairwise_sortByNext (l : List TEvent) :
    (sortByNext l).Pairwise (fun a b => a.next ≤ b.next) := by
  induction l with
  | nil => simp [sortByNext]
  | cons x xs ih => exact pairwise_insertByNext ih

theorem sortByNext_head_min {l r : List TEvent} {t : TEvent}
    (h : sortByNext l = t :: r) : ∀ x ∈ l, t.next ≤ x.next := by
  intro x hx
  have hmem : x ∈ t :: r := h ▸ (mem_sortByNext.mpr hx)
  rcases List.mem_cons.mp hmem with hx1 | hx1
  · exact hx1 ▸ le_refl _
  · have hp := pairwise_sortByNext l
    rw [h] at hp
    exact (List.pairwise_cons.mp hp).1 x hx1

theorem mem_registry {e : TEvent} {s : MState} :
    e ∈ registry s ↔ e ∈ s.events ∧ e.registered = true := by
  unfold registry
  simp [List.mem_filter]

theorem updateEvent_ids (evs : List TEvent) (t2 : TEvent) :
    (updateEvent evs t2).map (fun e => e.id) = evs.map (fun e => e.id) := by
  unfold updateEvent
  rw [List.map_map]
  refine List.map_congr_left ?_
  intro e _
  by_cases h : e.id = t2.id
  · simp [h]
  · simp [h]

theorem mem_updateEvent_of_ne {evs : List TEvent} {t2 e : TEvent}
    (he : e ∈ evs) (hne : e.id ≠ t2.id) : e ∈ updateEvent evs t2 := by
  unfold updateEvent
  refine List.mem_map.mpr ⟨e, he, ?_⟩
  simp [hne]

theorem mem_updateEvent {evs : List TEvent} {t2 x : TEvent}
    (hx : x ∈ updateEvent evs t2) : x = t2 ∨ (x ∈ evs ∧ x.id ≠ t2.id) := by
  unfold updateEvent at hx
  rcases List.mem_map.mp hx with ⟨e, he, hfe⟩
  by_cases h : e.id = t2.id
  · left; simp [h] at hfe; exact hfe.symm
  · right
    simp [h] at hfe
    exact hfe ▸ ⟨he, h⟩

theorem mem_updateEvent_self {evs : List TEvent} {t t2 : TEvent}
    (ht : t ∈ evs) (hid : t2.id = t.id) : t2 ∈ updateEvent evs t2 := by
  unfold updateEvent
  refine List.mem_map.mpr ⟨t, ht, ?_⟩
  simp [hid.symm]

/-! ### The firing step of the sort-based mock -/

theorem Mk.fireEvent_log (t : TEvent) (s : MState) :
    (Mk.fireEvent t s).log = s.log ++ [{ id := t.id, fireAt := t.next, obsNow := s.now }] := by
  unfold Mk.fireEvent
  split <;> rfl

theorem Mk.fireEvent_now (t : TEvent) (s : MState) : (Mk.fireEvent t s).now = s.now := by
  unfold Mk.fireEvent
  split <;> rfl

theorem Mk.fireEvent_events_ticker (t : TEvent) (s : MState) (ht : t.isTicker = true) :
    (Mk.fireEvent t s).events =
      updateEvent s.events ({ t with ch := chanTrySend t.ch t.cap s.now, next := s.now + t.period }) := by
  simp [Mk.fireEvent, ht]

theorem Mk.fireEvent_events_timer (t : TEvent) (s : MState) (ht : t.isTicker = false) :
    (Mk.fireEvent t s).events =
      updateEvent s.events
        ({ t with ch := if t.hasFn then t.ch else t.ch ++ [s.now],
                  stopped := true, registered := false }) := by
  simp [Mk.fireEvent, ht]

theorem Mk.runNextTimer_cons {mx : Int} {s : MState} {t : TEvent} {r : List TEvent}
    (hs : sortByNext (registry s) = t :: r) :
    Mk.runNextTimer mx s =
      if mx < t.next then none else some (Mk.fireEvent t { s with now := t.next }) := by
  unfold Mk.runNextTimer
  rw [hs]

theorem Mk.runNextTimer_nil {mx : Int} {s : MState}
    (hs : sortByNext (registry s) = []) : Mk.runNextTimer mx s = none := by
  unfold Mk.runNextTimer
  rw [hs]

theorem Mk.runNextTimer_none_due {mx : Int} {s : MState}
    (h : Mk.runNextTimer mx s = none) : ∀ e ∈ registry s, mx < e.next := by
  intro e he
  rcases hs : sortByNext (registry s) with _ | ⟨t, r⟩
  · have hmem : e ∈ sortByNext (registry s) := mem_sortByNext.mpr he
    rw [hs] at hmem
    exact absurd hmem (List.not_mem_nil e)
  · rw [Mk.runNextTimer_cons hs] at h
    by_cases hlt : mx < t.next
    · exact lt_of_lt_of_le hlt (sortByNext_head_min hs e he)
    · rw [if_neg hlt] at h
      exact absurd h (by simp)

theorem Mk.runNextTimer_some {mx : Int} {s s1 : MState}
    (h : Mk.runNextTimer mx s = some s1) :
    ∃ t r, sortByNext (registry s) = t :: r ∧ t.next ≤ mx ∧
      s1 = Mk.fireEvent t { s with now := t.next } := by
  rcases hs : sortByNext (registry s) with _ | ⟨t, r⟩
  · rw [Mk.runNextTimer_nil hs] at h
    exact absurd h (by simp)
  · rw [Mk.runNextTimer_cons hs] at h
    by_cases hlt : mx < t.next
    · rw [if_pos hlt] at h
      exact absurd h (by simp)
    · rw [if_neg hlt] at h
      exact ⟨t, r, rfl, le_of_not_lt hlt, (Option.some_injective _ h).symm⟩

theorem Mk.head_mem_of_sort {s : MState} {t : TEvent} {r : List TEvent}
    (hs : sortByNext (registry s) = t :: r) : t ∈ s.events ∧ t.registered = true := by
  have : t ∈ sortByNext (registry s) := by
    rw [hs]; exact List.mem_cons_self t r
  exact mem_registry.mp (mem_sortByNext.mp this)

theorem Mk.weightE_fired_ticker {mx : Int} {t : TEvent} (htreg : t.registered = true)
    (ht : t.isTicker = true) (hle : t.next ≤ mx) (hper : 0 < t.period) {chv : List Int} :
    Mk.weightE mx ({ t with ch := chv, next := t.next + t.period }) < Mk.weightE mx t := by
  simp [Mk.weightE, htreg, ht]
  split_ifs <;> omega

theorem Mk.weightE_fired_timer {mx : Int} {t : TEvent} (htreg : t.registered = true)
    (ht : t.isTicker = false) (hle : t.next ≤ mx) {chv : List Int} :
    Mk.weightE mx ({ t with ch := chv, stopped := true, registered := false }) < Mk.weightE mx t := by
  simp [Mk.weightE, htreg, ht]
  split_ifs <;> omega

theorem Mk.measureS_decreases {mx : Int} {s s1 : MState}
    (hnd : Mk.idsNodup s) (hpos : Mk.tickersPosReg s)
    (h : Mk.runNextTimer mx s = some s1) :
    Mk.measureS mx s1 < Mk.measureS mx s := by
  rcases Mk.runNextTimer_some h with ⟨t, r, hs, hle, rfl⟩
  rcases Mk.head_mem_of_sort hs with ⟨htev, htreg⟩
  have hinj : ∀ e ∈ s.events, e.id = t.id → e = t := by
    intro e he hid
    exact List.inj_on_of_nodup_map hnd he htev hid
  by_cases ht : t.isTicker = true
  · have hper : 0 < t.period := hpos t htev htreg ht
    have hev := Mk.fireEvent_events_ticker t { s with now := t.next } ht
    simp only at hev
    unfold Mk.measureS
    rw [hev]
    unfold updateEvent
    rw [List.map_map]
    refine List.sum_lt_sum _ _ ?_ ⟨t, htev, ?_⟩
    · intro e he
      by_cases hid : e.id = t.id
      · have he2 : e = t := hinj e he hid
        subst he2
        simp only [Function.comp_apply, if_pos rfl]
        exact le_of_lt (Mk.weightE_fired_ticker htreg ht hle hper)
      · simp only [Function.comp_apply, if_neg hid]
        exact le_refl _
    · simp only [Function.comp_apply, if_pos rfl]
      exact Mk.weightE_fired_ticker htreg ht hle hper
  · have ht2 : t.isTicker = false := by simpa using ht
    have hev := Mk.fireEvent_events_timer t { s with now := t.next } ht2
    simp only at hev
    unfold Mk.measureS
    rw [hev]
    unfold updateEvent
    rw [List.map_map]
    refine List.sum_lt_sum _ _ ?_ ⟨t, htev, ?_⟩
    · intro e he
      by_cases hid : e.id = t.id
      · have he2 : e = t := hinj e he hid
        subst he2
        simp only [Function.comp_apply, if_pos rfl]
        exact le_of_lt (Mk.weightE_fired_timer htreg ht2 hle)
      · simp only [Function.comp_apply, if_neg hid]
        exact le_refl _
    · simp only [Function.comp_apply, if_pos rfl]
      exact Mk.weightE_fired_timer htreg ht2 hle

theorem Mk.fireEvent_shape (t : TEvent) (s : MState) :
    ∃ t2 : TEvent, (Mk.fireEvent t s).events = updateEvent s.events t2 ∧ t2.id = t.id ∧
      t2.period = t.period ∧ t2.isTicker = t.isTicker ∧
      (t2.registered = true → t.registered = true) := by
  by_cases ht : t.isTicker = true
  · exact ⟨_, Mk.fireEvent_events_ticker t s ht, rfl, rfl, rfl, fun h => h⟩
  · have ht2 : t.isTicker = false := by simpa using ht
    exact ⟨_, Mk.fireEvent_events_timer t s ht2, rfl, rfl, rfl, fun h => by simp at h⟩

theorem Mk.fireEvent_nodup (t : TEvent) (s : MState) (hnd : Mk.idsNodup s) :
    Mk.idsNodup (Mk.fireEvent t s) := by
  rcases Mk.fireEvent_shape t s with ⟨t2, hev, _, _, _, _⟩
  unfold Mk.idsNodup at hnd ⊢
  rw [hev, updateEvent_ids]
  exact hnd

theorem Mk.fireEvent_pos (t : TEvent) (s : MState) (htev : t ∈ s.events)
    (hpos : Mk.tickersPosReg s) : Mk.tickersPosReg (Mk.fireEvent t s) := by
  rcases Mk.fireEvent_shape t s with ⟨t2, hev, hid, hper, htk, hreg⟩
  intro x hx hxreg hxtick
  rw [hev] at hx
  rcases mem_updateEvent hx with hx1 | ⟨hx1, _⟩
  · subst hx1
    have : 0 < t.period := hpos t htev (hreg hxreg) (htk ▸ hxtick)
    exact hper ▸ this
  · exact hpos x hx1 hxreg hxtick

theorem Mk.addLoop_total_fires : ∀ fuel target (s : MState),
    Mk.measureS target s < fuel → Mk.idsNodup s → Mk.tickersPosReg s →
    ∃ s2 Δ, Mk.addLoop fuel target s = some s2 ∧ s2.log = s.log ++ Δ ∧
      ∀ e ∈ s.events, e.registered = true →
        ((∃ en ∈ Δ, en.id = e.id) ↔ e.next ≤ target) := by
  intro fuel
  induction fuel with
  | zero => intro target s hm; exact absurd hm (Nat.not_lt_zero _)
  | succ n ih =>
    intro target s hm hnd hpos
    rcases hrun : Mk.runNextTimer target s with _ | s1
    · refine ⟨s, [], ?_, by simp, ?_⟩
      · unfold Mk.addLoop
        rw [hrun]
      · intro e he hereg
        constructor
        · rintro ⟨en, hen, _⟩
          exact absurd hen (List.not_mem_nil en)
        · intro hle
          have := Mk.runNextTimer_none_due hrun e (mem_registry.mpr ⟨he, hereg⟩)
          omega
    · rcases Mk.runNextTimer_some hrun with ⟨t, r, hs, hle, hs1⟩
      rcases Mk.head_mem_of_sort hs with ⟨htev, htreg⟩
      have hinj : ∀ e ∈ s.events, e.id = t.id → e = t := by
        intro e he hid
        exact List.inj_on_of_nodup_map hnd he htev hid
      have hndu : Mk.idsNodup ({ s with now := t.next }) := hnd
      have hposu : Mk.tickersPosReg ({ s with now := t.next }) := hpos
      have hnd1 : Mk.idsNodup s1 := hs1 ▸ Mk.fireEvent_nodup t _ hndu
      have hpos1 : Mk.tickersPosReg s1 := hs1 ▸ Mk.fireEvent_pos t _ htev hposu
      have hdec : Mk.measureS target s1 < Mk.measureS target s :=
        Mk.measureS_decreases hnd hpos hrun
      have hm1 : Mk.measureS target s1 < n := by omega
      rcases ih target s1 hm1 hnd1 hpos1 with ⟨s2, Δ1, hloop, hlog1, hiff1⟩
      have hlog0 : s1.log = s.log ++ [{ id := t.id, fireAt := t.next, obsNow := t.next }] := by
        rw [hs1]
        exact Mk.fireEvent_log t _
      refine ⟨s2, { id := t.id, fireAt := t.next, obsNow := t.next } :: Δ1, ?_, ?_, ?_⟩
      · unfold Mk.addLoop
        rw [hrun]
        exact hloop
      · rw [hlog1, hlog0]
        simp
      · intro e he hereg
        rcases Mk.fireEvent_shape t ({ s with now := t.next }) with ⟨t2, hev, hid2, _, _, _⟩
        by_cases hid : e.id = t.id
        · have he2 : e = t := hinj e he hid
          subst he2
          refine iff_of_true ⟨_, List.mem_cons_self _ _, rfl⟩ hle
        · have hemem : e ∈ s1.events := by
            rw [hs1]
            show e ∈ (Mk.fireEvent t ({ s with now := t.next })).events
            rw [hev]
            exact mem_updateEvent_of_ne he (by rw [hid2]; exact hid)
          have hiffe := hiff1 e hemem hereg
          constructor
          · rintro ⟨en, hen, henid⟩
            rcases List.mem_cons.mp hen with hen1 | hen1
            · subst hen1
              simp only at henid
              exact absurd henid.symm hid
            · exact hiffe.mp ⟨en, hen1, henid⟩
          · intro hle2
            rcases hiffe.mpr hle2 with ⟨en, hen, henid⟩
            exact ⟨en, List.mem_cons_of_mem _ hen, henid⟩

theorem Mk.applyCreate_now (s : MState) (op : Mk.CreateOp) :
    (Mk.applyCreate s op).now = s.now := by
  cases op <;> rfl

theorem Mk.applyCreate_log (s : MState) (op : Mk.CreateOp) :
    (Mk.applyCreate s op).log = s.log := by
  cases op <;> rfl

theorem Mk.applyCreate_shape (s : MState) (op : Mk.CreateOp) :
    ∃ ev : TEvent, (Mk.applyCreate s op).events = s.events ++ [ev] ∧ ev.id = s.nextId ∧
      (Mk.applyCreate s op).nextId = s.nextId + 1 := by
  cases op with
  | timer d => exact ⟨_, rfl, rfl, rfl⟩
  | ticker d => exact ⟨_, rfl, rfl, rfl⟩

theorem Mk.applyCreate_nodup (s : MState) (op : Mk.CreateOp)
    (hnd : Mk.idsNodup s) (hb : Mk.idsBounded s) :
    Mk.idsNodup (Mk.applyCreate s op) ∧ Mk.idsBounded (Mk.applyCreate s op) := by
  rcases Mk.applyCreate_shape s op with ⟨ev, hev, hid, hnext⟩
  constructor
  · unfold Mk.idsNodup at hnd ⊢
    rw [hev, List.map_append]
    rw [List.nodup_append]
    refine ⟨hnd, by simp, ?_⟩
    intro a ha hb2
    simp at hb2
    rcases List.mem_map.mp ha with ⟨e, he, rfl⟩
    have := hb e he
    omega
  · intro e he
    rw [hev] at he
    rw [hnext]
    rcases List.mem_append.mp he with he1 | he1
    · have := hb e he1
      omega
    · simp at he1
      subst he1
      omega

theorem Mk.applyCreate_pos (s : MState) (op : Mk.CreateOp)
    (hpos : Mk.tickersPosReg s) (hop : Mk.CreateOp.posPeriod op = true) :
    Mk.tickersPosReg (Mk.applyCreate s op) := by
  intro e he hereg hetick
  cases op with
  | timer d =>
    rcases List.mem_append.mp he with he1 | he1
    · exact hpos e he1 hereg hetick
    · simp at he1
      subst he1
      simp at hetick
  | ticker d =>
    rcases List.mem_append.mp he with he1 | he1
    · exact hpos e he1 hereg hetick
    · simp at he1
      subst he1
      simpa [Mk.CreateOp.posPeriod] using hop

theorem Mk.createAll_props : ∀ (ops : List Mk.CreateOp) (s : MState),
    Mk.idsNodup s → Mk.idsBounded s → Mk.tickersPosReg s →
    (∀ op ∈ ops, Mk.CreateOp.posPeriod op = true) →
    Mk.idsNodup (Mk.createAll s ops) ∧ Mk.idsBounded (Mk.createAll s ops) ∧
      Mk.tickersPosReg (Mk.createAll s ops) ∧
      (Mk.createAll s ops).now = s.now ∧ (Mk.createAll s ops).log = s.log := by
  intro ops
  induction ops with
  | nil => intro s h1 h2 h3 _; exact ⟨h1, h2, h3, rfl, rfl⟩
  | cons op rest ih =>
    intro s h1 h2 h3 hops
    have hop : Mk.CreateOp.posPeriod op = true := hops op (List.mem_cons_self _ _)
    have hrest : ∀ o ∈ rest, Mk.CreateOp.posPeriod o = true :=
      fun o ho => hops o (List.mem_cons_of_mem _ ho)
    rcases Mk.applyCreate_nodup s op h1 h2 with ⟨h1a, h2a⟩
    have h3a := Mk.applyCreate_pos s op h3 hop
    have hall := ih (Mk.applyCreate s op) h1a h2a h3a hrest
    refine ⟨hall.1, hall.2.1, hall.2.2.1, ?_, ?_⟩
    · rw [show Mk.createAll s (op :: rest) = Mk.createAll (Mk.applyCreate s op) rest from rfl]
      rw [hall.2.2.2.1, Mk.applyCreate_now]
    · rw [show Mk.createAll s (op :: rest) = Mk.createAll (Mk.applyCreate s op) rest from rfl]
      rw [hall.2.2.2.2, Mk.applyCreate_log]

/-- Claim C1: starting from any well-formed sort-based mock state,
after any sequence of Timer(d)/Ticker(d) creations (with positive
ticker periods, without which the Go advance loop does not return), a
single Add(d) terminates; a pending (registered) event produces a fire
entry during that call if and only if its fireAt is at most
now_before + d, and afterwards now equals now_before + d exactly. -/
theorem claim1_add_fires_iff (s : MState) (ops : List Mk.CreateOp) (d : Int)
    (hnd : Mk.idsNodup s) (hb : Mk.idsBounded s) (hpos : Mk.tickersPosReg s)
    (hops : ∀ op ∈ ops, Mk.CreateOp.posPeriod op = true) :
    ∃ fuel s2 Δ, Mk.mockAdd fuel d (Mk.createAll s ops) = some s2 ∧
      s2.now = (Mk.createAll s ops).now + d ∧
      s2.log = (Mk.createAll s ops).log ++ Δ ∧
      ∀ e ∈ (Mk.createAll s ops).events, e.registered = true →
        ((∃ en ∈ Δ, en.id = e.id) ↔ e.next ≤ (Mk.createAll s ops).now + d) := by
  obtain ⟨hnd0, hb0, hpos0, hnow0, hlog0⟩ := Mk.createAll_props ops s hnd hb hpos hops
  rcases Mk.addLoop_total_fires (Mk.measureS ((Mk.createAll s ops).now + d) (Mk.createAll s ops) + 1)
      ((Mk.createAll s ops).now + d) (Mk.createAll s ops) (by omega) hnd0 hpos0 with
    ⟨s2, Δ, hloop, hlog, hiff⟩
  refine ⟨Mk.measureS ((Mk.createAll s ops).now + d) (Mk.createAll s ops) + 1,
    { s2 with now := (Mk.createAll s ops).now + d }, Δ, ?_, rfl, hlog, hiff⟩
  unfold Mk.mockAdd
  rw [hloop]
  rfl

/-- Closed witness for claim C1: a timer due exactly at the target
fires, a later one does not, and now lands on the target. -/
theorem claim1_witness :
    (Mk.idsNodup initMState ∧ Mk.idsBounded initMState ∧ Mk.tickersPosReg initMState ∧
      ∀ op ∈ [Mk.CreateOp.timer 7, Mk.CreateOp.timer 8, Mk.CreateOp.ticker 3],
        Mk.CreateOp.posPeriod op = true) ∧
    (∃ fuel s2 Δ,
      Mk.mockAdd fuel 7
          (Mk.createAll initMState
            [Mk.CreateOp.timer 7, Mk.CreateOp.timer 8, Mk.CreateOp.ticker 3]) = some s2 ∧
      s2.now = (Mk.createAll initMState
            [Mk.CreateOp.timer 7, Mk.CreateOp.timer 8, Mk.CreateOp.ticker 3]).now + 7 ∧
      s2.log = (Mk.createAll initMState
            [Mk.CreateOp.timer 7, Mk.CreateOp.timer 8, Mk.CreateOp.ticker 3]).log ++ Δ ∧
      ∀ e ∈ (Mk.createAll initMState
            [Mk.CreateOp.timer 7, Mk.CreateOp.timer 8, Mk.CreateOp.ticker 3]).events,
        e.registered = true →
        ((∃ en ∈ Δ, en.id = e.id) ↔
          e.next ≤ (Mk.createAll initMState
            [Mk.CreateOp.timer 7, Mk.CreateOp.timer 8, Mk.CreateOp.ticker 3]).now + 7)) :=
  ⟨⟨by decide, by decide, by decide, by decide⟩,
   claim1_add_fires_iff initMState
     [Mk.CreateOp.timer 7, Mk.CreateOp.timer 8, Mk.CreateOp.ticker 3] 7
     (by decide) (by decide) (by decide) (by decide)⟩

theorem Mk.fire_bound {target : Int} {s s1 : MState}
    (hpos : Mk.tickersPosReg s) (hrun : Mk.runNextTimer target s = some s1) :
    ∃ t : TEvent, t.next ≤ target ∧ t ∈ s.events ∧ t.registered = true ∧
      s1.log = s.log ++ [{ id := t.id, fireAt := t.next, obsNow := t.next }] ∧
      (∀ x ∈ s1.events, x.registered = true → t.next ≤ x.next) := by
  rcases Mk.runNextTimer_some hrun with ⟨t, r, hs, hle, hs1⟩
  rcases Mk.head_mem_of_sort hs with ⟨htev, htreg⟩
  refine ⟨t, hle, htev, htreg, ?_, ?_⟩
  · rw [hs1]
    exact Mk.fireEvent_log t _
  · intro x hx hxreg
    rw [hs1] at hx
    by_cases ht : t.isTicker = true
    · rw [Mk.fireEvent_events_ticker t _ ht] at hx
      rcases mem_updateEvent hx with hx1 | ⟨hx1, _⟩
      · subst hx1
        show t.next ≤ t.next + t.period
        have : 0 < t.period := hpos t htev htreg ht
        omega
      · exact sortByNext_head_min hs x (mem_registry.mpr ⟨hx1, hxreg⟩)
    · have ht2 : t.isTicker = false := by simpa using ht
      rw [Mk.fireEvent_events_timer t _ ht2] at hx
      rcases mem_updateEvent hx with hx1 | ⟨hx1, _⟩
      · subst hx1
        simp at hxreg
      · exact sortByNext_head_min hs x (mem_registry.mpr ⟨hx1, hxreg⟩)

theorem Mk.fire_pos {target : Int} {s s1 : MState}
    (hpos : Mk.tickersPosReg s) (hrun : Mk.runNextTimer target s = some s1) :
    Mk.tickersPosReg s1 := by
  rcases Mk.runNextTimer_some hrun with ⟨t, r, hs, hle, hs1⟩
  rcases Mk.head_mem_of_sort hs with ⟨htev, htreg⟩
  exact hs1 ▸ Mk.fireEvent_pos t _ htev hpos

theorem Mk.addLoop_ordered_from : ∀ (fuel : Nat) (b target : Int) (s s2 : MState),
    Mk.tickersPosReg s →
    (∀ e ∈ s.events, e.registered = true → b ≤ e.next) →
    Mk.addLoop fuel target s = some s2 →
    ∃ Δ, s2.log = s.log ++ Δ ∧
      (∀ en ∈ Δ, b ≤ en.fireAt ∧ en.obsNow = en.fireAt) ∧
      List.Chain' (fun a c => a.fireAt ≤ c.fireAt) Δ := by
  intro fuel
  induction fuel with
  | zero => intro b target s s2 _ _ h; exact absurd h (by simp [Mk.addLoop])
  | succ n ih =>
    intro b target s s2 hpos hb h
    unfold Mk.addLoop at h
    rcases hrun : Mk.runNextTimer target s with _ | s1 <;> rw [hrun] at h
    · simp at h
      refine ⟨[], ?_, by simp, by simp⟩
      rw [h]
      simp
    · rcases Mk.fire_bound hpos hrun with ⟨t, hle, htev, htreg, hlog1, hafter⟩
      have hbt : b ≤ t.next := hb t htev htreg
      have hpos1 : Mk.tickersPosReg s1 := Mk.fire_pos hpos hrun
      rcases ih t.next target s1 s2 hpos1 hafter h with ⟨Δ1, hlog2, hbound1, hchain1⟩
      refine ⟨{ id := t.id, fireAt := t.next, obsNow := t.next } :: Δ1, ?_, ?_, ?_⟩
      · rw [hlog2, hlog1]
        simp
      · intro en hen
        rcases List.mem_cons.mp hen with hen1 | hen1
        · subst hen1
          exact ⟨hbt, rfl⟩
        · exact ⟨le_trans hbt (hbound1 en hen1).1, (hbound1 en hen1).2⟩
      · refine List.chain'_cons'.mpr ⟨?_, hchain1⟩
        intro y hy
        have hymem : y ∈ Δ1 := List.mem_of_mem_head? hy
        exact (hbound1 y hymem).1

theorem Mk.addLoop_ordered (fuel : Nat) (target : Int) (s s2 : MState)
    (hpos : Mk.tickersPosReg s) (h : Mk.addLoop fuel target s = some s2) :
    ∃ Δ, s2.log = s.log ++ Δ ∧ (∀ en ∈ Δ, en.obsNow = en.fireAt) ∧
      List.Chain' (fun a c => a.fireAt ≤ c.fireAt) Δ := by
  cases fuel with
  | zero => exact absurd h (by simp [Mk.addLoop])
  | succ n =>
    unfold Mk.addLoop at h
    rcases hrun : Mk.runNextTimer target s with _ | s1 <;> rw [hrun] at h
    · simp at h
      refine ⟨[], ?_, by simp, by simp⟩
      rw [h]
      simp
    · rcases Mk.fire_bound hpos hrun with ⟨t, hle, htev, htreg, hlog1, hafter⟩
      have hpos1 : Mk.tickersPosReg s1 := Mk.fire_pos hpos hrun
      rcases Mk.addLoop_ordered_from n t.next target s1 s2 hpos1 hafter h with
        ⟨Δ1, hlog2, hbound1, hchain1⟩
      refine ⟨{ id := t.id, fireAt := t.next, obsNow := t.next } :: Δ1, ?_, ?_, ?_⟩
      · rw [hlog2, hlog1]
        simp
      · intro en hen
        rcases List.mem_cons.mp hen with hen1 | hen1
        · subst hen1
          rfl
        · exact (hbound1 en hen1).2
      · refine List.chain'_cons'.mpr ⟨?_, hchain1⟩
        intro y hy
        have hymem : y ∈ Δ1 := List.mem_of_mem_head? hy
        exact (hbound1 y hymem).1

/-- Claim C2: during a single Add or Set call of the sort-based mock,
the fire entries produced are in non-decreasing fireAt order (the
earliest-due registered event is extracted at every step), and every
fired event observes a clock value equal to its own fireAt at the
moment of firing, not the final target. -/
theorem claim2_fire_order (fuel : Nat) (d tgt : Int) (s : MState)
    (hpos : Mk.tickersPosReg s) :
    (∀ s2, Mk.mockAdd fuel d s = some s2 →
      ∃ Δ, s2.log = s.log ++ Δ ∧ (∀ en ∈ Δ, en.obsNow = en.fireAt) ∧
        List.Chain' (fun a c => a.fireAt ≤ c.fireAt) Δ) ∧
    (∀ s2, Mk.mockSet fuel tgt s = some s2 →
      ∃ Δ, s2.log = s.log ++ Δ ∧ (∀ en ∈ Δ, en.obsNow = en.fireAt) ∧
        List.Chain' (fun a c => a.fireAt ≤ c.fireAt) Δ) := by
  constructor
  · intro s2 h
    unfold Mk.mockAdd at h
    rcases hloop : Mk.addLoop fuel (s.now + d) s with _ | s3 <;> rw [hloop] at h
    · simp at h
    · simp at h
      rcases Mk.addLoop_ordered fuel (s.now + d) s s3 hpos hloop with ⟨Δ, hlog, hobs, hchain⟩
      exact ⟨Δ, by rw [← h]; exact hlog, hobs, hchain⟩
  · intro s2 h
    unfold Mk.mockSet at h
    rcases hloop : Mk.addLoop fuel tgt s with _ | s3 <;> rw [hloop] at h
    · simp at h
    · simp at h
      rcases Mk.addLoop_ordered fuel tgt s s3 hpos hloop with ⟨Δ, hlog, hobs, hchain⟩
      exact ⟨Δ, by rw [← h]; exact hlog, hobs, hchain⟩

/-- Closed witness for claim C2 at a concrete two-timer, one-ticker
state. -/
theorem claim2_witness :
    Mk.tickersPosReg
      (Mk.createAll initMState
        [Mk.CreateOp.timer 4, Mk.CreateOp.ticker 3, Mk.CreateOp.timer 1]) ∧
    ((∀ s2, Mk.mockAdd 9 9
        (Mk.createAll initMState
          [Mk.CreateOp.timer 4, Mk.CreateOp.ticker 3, Mk.CreateOp.timer 1]) = some s2 →
      ∃ Δ, s2.log =
          (Mk.createAll initMState
            [Mk.CreateOp.timer 4, Mk.CreateOp.ticker 3, Mk.CreateOp.timer 1]).log ++ Δ ∧
        (∀ en ∈ Δ, en.obsNow = en.fireAt) ∧
        List.Chain' (fun a c => a.fireAt ≤ c.fireAt) Δ) ∧
    (∀ s2, Mk.mockSet 9 9
        (Mk.createAll initMState
          [Mk.CreateOp.timer 4, Mk.CreateOp.ticker 3, Mk.CreateOp.timer 1]) = some s2 →
      ∃ Δ, s2.log =
          (Mk.createAll initMState
            [Mk.CreateOp.timer 4, Mk.CreateOp.ticker 3, Mk.CreateOp.timer 1]).log ++ Δ ∧
        (∀ en ∈ Δ, en.obsNow = en.fireAt) ∧
        List.Chain' (fun a c => a.fireAt ≤ c.fireAt) Δ)) :=
  ⟨by decide,
   claim2_fire_order 9 9 9
     (Mk.createAll initMState
       [Mk.CreateOp.timer 4, Mk.CreateOp.ticker 3, Mk.CreateOp.timer 1]) (by decide)⟩

/-! ### Claims C3 and C4: Set/Add into the past -/

/-- Claim C3 counterexample: in the sort-based mock, Set with a target
strictly before the current time is not rejected and does not leave the
clock unchanged: from now = 10, Set(5) succeeds and now becomes 5. -/
theorem claim3_counterexample :
    ((Mk.mockAdd 1 10 initMState).map (fun s => s.now) = some 10) ∧
    ((Mk.mockAdd 1 10 initMState).bind (Mk.mockSet 1 5)).map (fun s => s.now) = some 5 ∧
    (5 : Int) ≠ 10 := by
  decide

/-- Claim C3 (amended): in the hook-based variant, Set with a target
strictly before the current time panics; the guard runs before any
mutation, so the clock state is untouched. -/
theorem claim3_set_past_rejected (fuel : Nat) (t : Int) (s : MState) (h : t < s.now) :
    P3.mockSet fuel t s = none := by
  unfold P3.mockSet
  rw [if_pos (by omega)]

/-- Closed witness for the amended claim C3. -/
theorem claim3_witness :
    ((5 : Int) < ({ now := 10, events := [], log := [], nextId := 0 } : MState).now) ∧
    P3.mockSet 3 5 ({ now := 10, events := [], log := [], nextId := 0 } : MState) = none :=
  ⟨by decide, claim3_set_past_rejected 3 5 _ (by decide)⟩

theorem P3.timerNew_now (d : Int) (s : MState) : (P3.timerNew d s).now = s.now := by
  unfold P3.timerNew
  split <;> rfl

theorem P3.tickerNew_now (d : Int) (s : MState) : (P3.tickerNew d s).now = s.now := rfl

theorem P3.timerStop_now (i : Nat) (s : MState) : (P3.timerStop i s).2.now = s.now := by
  cases hf : s.events.find? (fun e => e.id == i) <;> simp [P3.timerStop, hf]

theorem P3.timerReset_now (i : Nat) (d : Int) (s : MState) :
    (P3.timerReset i d s).2.now = s.now := by
  cases hf : s.events.find? (fun e => e.id == i) <;> simp [P3.timerReset, hf]

theorem P3.tickerStop_now (i : Nat) (s : MState) : (P3.tickerStop i s).now = s.now := by
  cases hf : s.events.find? (fun e => e.id == i) <;> simp [P3.tickerStop, hf]

theorem P3.tickerReset_now (i : Nat) (d : Int) (s : MState) :
    (P3.tickerReset i d s).now = s.now := by
  cases hf : s.events.find? (fun e => e.id == i) <;> simp [P3.tickerReset, hf]

theorem P3.step_mono (s s1 : MState) (op : P3.Op) (h : P3.step s op = some s1) :
    s.now ≤ s1.now := by
  cases op with
  | add d fuel =>
    simp only [P3.step] at h
    unfold P3.mockAdd at h
    by_cases hd : d < 0
    · rw [if_pos hd] at h
      simp at h
    · rw [if_neg hd] at h
      rcases hloop : P3.addLoop fuel (s.now + d) s with _ | s3 <;> rw [hloop] at h <;> simp at h
      rw [← h]
      show s.now ≤ s.now + d
      omega
  | set t fuel =>
    simp only [P3.step] at h
    unfold P3.mockSet at h
    by_cases ht : s.now > t
    · rw [if_pos ht] at h
      simp at h
    · rw [if_neg ht] at h
      rcases hloop : P3.addLoop fuel t s with _ | s3 <;> rw [hloop] at h <;> simp at h
      rw [← h]
      show s.now ≤ t
      omega
  | timer d =>
    simp only [P3.step] at h
    rw [← Option.some_injective _ h]
    rw [P3.timerNew_now]
  | ticker d =>
    simp only [P3.step] at h
    rw [← Option.some_injective _ h, P3.tickerNew_now]
  | timerStopOp i =>
    simp only [P3.step] at h
    rw [← Option.some_injective _ h, P3.timerStop_now]
  | timerResetOp i d =>
    simp only [P3.step] at h
    rw [← Option.some_injective _ h, P3.timerReset_now]
  | tickerStopOp i =>
    simp only [P3.step] at h
    rw [← Option.some_injective _ h, P3.tickerStop_now]
  | tickerResetOp i d =>
    simp only [P3.step] at h
    rw [← Option.some_injective _ h, P3.tickerReset_now]

theorem P3.runOps_mono : ∀ (ops : List P3.Op) (s s1 : MState),
    P3.runOps ops s = some s1 → s.now ≤ s1.now := by
  intro ops
  induction ops with
  | nil =>
    intro s s1 h
    simp [P3.runOps] at h
    rw [h]
  | cons op rest ih =>
    intro s s1 h
    unfold P3.runOps at h
    rcases hstep : P3.step s op with _ | s2 <;> rw [hstep] at h
    · simp at h
    · exact le_trans (P3.step_mono s s2 op hstep) (ih s2 s1 h)

theorem P3.runOps_cons (op : P3.Op) (rest : List P3.Op) (s : MState) :
    P3.runOps (op :: rest) s =
      match P3.step s op with
      | none => none
      | some s1 => P3.runOps rest s1 := rfl

theorem P3.runOps_append : ∀ (a b : List P3.Op) (s : MState),
    P3.runOps (a ++ b) s =
      match P3.runOps a s with
      | none => none
      | some s1 => P3.runOps b s1 := by
  intro a
  induction a with
  | nil => intro b s; rfl
  | cons op rest ih =>
    intro b s
    rcases hstep : P3.step s op with _ | s2
    · rw [List.cons_append, P3.runOps_cons, P3.runOps_cons, hstep]
    · rw [List.cons_append, P3.runOps_cons, P3.runOps_cons, hstep]
      exact ih b s2

/-- Claim C4 counterexample: in the sort-based mock, Add accepts a
negative duration and moves the clock backward: from the epoch, Add(-5)
leaves now = -5, which is below the initial time 0. -/
theorem claim4_counterexample :
    initMState.now = 0 ∧
    (Mk.mockAdd 1 (-5) initMState).map (fun s => s.now) = some (-5) ∧
    ((-5 : Int) < 0) := by
  decide

/-- Claim C4 (amended): in the hook-based variant, whose Add panics on
negative durations and whose Set panics on past targets, the current
time is monotonically non-decreasing across every completed sequence of
public operations. -/
theorem claim4_now_monotone (ops1 ops2 : List P3.Op) (s1 s2 : MState)
    (h1 : P3.runOps ops1 P3.init = some s1)
    (h2 : P3.runOps (ops1 ++ ops2) P3.init = some s2) :
    s1.now ≤ s2.now := by
  have h3 := P3.runOps_append ops1 ops2 P3.init
  rw [h1] at h3
  rw [h2] at h3
  exact P3.runOps_mono ops2 s1 s2 h3.symm

/-- Closed witness for the amended claim C4. -/
theorem claim4_witness :
    (P3.runOps [P3.Op.timer 5, P3.Op.add 3 4] P3.init =
      some { now := 3, events := [{ id := 0, isTicker := false, next := 5, period := 0,
                                    ch := [], cap := 1, hasFn := false, stopped := false,
                                    registered := true }],
             log := [], nextId := 1 }) ∧
    (P3.runOps ([P3.Op.timer 5, P3.Op.add 3 4] ++ [P3.Op.add 4 4]) P3.init =
      some { now := 7, events := [{ id := 0, isTicker := false, next := 5, period := 0,
                                    ch := [5], cap := 1, hasFn := false, stopped := true,
                                    registered := false }],
             log := [{ id := 0, fireAt := 5, obsNow := 5 }], nextId := 1 }) ∧
    (3 : Int) ≤ 7 :=
  ⟨by decide, by decide,
   claim4_now_monotone [P3.Op.timer 5, P3.Op.add 3 4] [P3.Op.add 4 4]
     ({ now := 3, events := [{ id := 0, isTicker := false, next := 5, period := 0,
                               ch := [], cap := 1, hasFn := false, stopped := false,
                               registered := true }],
        log := [], nextId := 1 })
     ({ now := 7, events := [{ id := 0, isTicker := false, next := 5, period := 0,
                               ch := [5], cap := 1, hasFn := false, stopped := true,
                               registered := false }],
        log := [{ id := 0, fireAt := 5, obsNow := 5 }], nextId := 1 })
     (by decide) (by decide)⟩

/-! ### Claim C6: ticker delivery semantics -/

/-- Claim C6 counterexample: in the hook-based variant, firing a Ticker
whose consumer has not drained the channel does not drop the tick: the
send queues a second value behind the undrained one. -/
theorem claim6_counterexample :
    P3.runNextTimer 5
      ({ now := 0,
         events := [{ id := 0, isTicker := true, next := 1, period := 1, ch := [0],
                      cap := 1000, hasFn := false, stopped := false, registered := true }],
         log := [], nextId := 1 }) =
      P3.ROut.fired
        ({ now := 1,
           events := [{ id := 0, isTicker := true, next := 2, period := 1, ch := [0, 1],
                        cap := 1000, hasFn := false, stopped := false, registered := true }],
           log := [{ id := 0, fireAt := 1, obsNow := 1 }], nextId := 1 }) ∧
    ([0, 1] : List Int) ≠ [0] := by
  decide

/-- Claim C6 (amended): in the sort-based mock (and identically in the
heap-based one), firing a due ticker always succeeds regardless of the
channel content: it performs the drop-if-full send chanTrySend of the
observed now, recomputes the next fire time as fireAt + period, and the
ticker keeps its registration. -/
theorem claim6_ticker_fire (s : MState) (target : Int) (e : TEvent) (r : List TEvent)
    (hs : sortByNext (registry s) = e :: r) (hle : e.next ≤ target) (ht : e.isTicker = true) :
    e.registered = true ∧
    Mk.runNextTimer target s =
      some ({ s with
              now := e.next,
              events := updateEvent s.events
                ({ e with ch := chanTrySend e.ch e.cap e.next, next := e.next + e.period }),
              log := s.log ++ [{ id := e.id, fireAt := e.next, obsNow := e.next }] }) := by
  refine ⟨(Mk.head_mem_of_sort hs).2, ?_⟩
  rw [Mk.runNextTimer_cons hs, if_neg (not_lt.mpr hle)]
  simp [Mk.fireEvent, ht]

/-- Closed witness for the amended claim C6, at a ticker whose
capacity-1 buffer still holds an unread value: the tick is dropped, the
advance succeeds, and the ticker is re-armed at fireAt + period. -/
theorem claim6_witness :
    (sortByNext (registry
      ({ now := 0,
         events := [{ id := 0, isTicker := true, next := 2, period := 2, ch := [9],
                      cap := 1, hasFn := false, stopped := false, registered := true }],
         log := [], nextId := 1 })) =
      [{ id := 0, isTicker := true, next := 2, period := 2, ch := [9],
         cap := 1, hasFn := false, stopped := false, registered := true }] ∧
     (2 : Int) ≤ 5 ∧
     ({ id := 0, isTicker := true, next := 2, period := 2, ch := [9],
        cap := 1, hasFn := false, stopped := false, registered := true } : TEvent).isTicker = true) ∧
    (({ id := 0, isTicker := true, next := 2, period := 2, ch := [9],
        cap := 1, hasFn := false, stopped := false, registered := true } : TEvent).registered = true ∧
     Mk.runNextTimer 5
       ({ now := 0,
          events := [{ id := 0, isTicker := true, next := 2, period := 2, ch := [9],
                       cap := 1, hasFn := false, stopped := false, registered := true }],
          log := [], nextId := 1 }) =
       some ({ now := 2,
               events := updateEvent
                 [{ id := 0, isTicker := true, next := 2, period := 2, ch := [9],
                    cap := 1, hasFn := false, stopped := false, registered := true }]
                 ({ id := 0, isTicker := true, next := 4, period := 2, ch := chanTrySend [9] 1 2,
                    cap := 1, hasFn := false, stopped := false, registered := true }),
               log := [{ id := 0, fireAt := 2, obsNow := 2 }], nextId := 1 })) :=
  ⟨⟨by decide, by decide, by decide⟩,
   claim6_ticker_fire
     ({ now := 0,
        events := [{ id := 0, isTicker := true, next := 2, period := 2, ch := [9],
                     cap := 1, hasFn := false, stopped := false, registered := true }],
        log := [], nextId := 1 }) 5
     ({ id := 0, isTicker := true, next := 2, period := 2, ch := [9],
        cap := 1, hasFn := false, stopped := false, registered := true }) []
     (by decide) (by decide) (by decide)⟩

/-! ### Claim C8: lock discipline around the AfterFunc callback -/

/-- Claim C8: the Mock variant of internalTimer.Tick in mock.go holds
the clock mutex while invoking the AfterFunc callback, so a Reset
called from inside the callback deadlocks on the same mutex; the
UnsynchronizedMock variant releases the mutex before the callback, as
the specification requires, and its Timer.Reset re-arms the timer to
fire at now_at_reset + d (here 10 + 4). -/
theorem claim8_lock_at_callback :
    Scripts.heldAtCallFn Scripts.mockTickFn 0 = true ∧
    Scripts.heldAtCallFn Scripts.unsyncTickFn 0 = false ∧
    ((Mk.timerReset 0 4
        ({ now := 10,
           events := [{ id := 0, isTicker := false, next := 3, period := 0, ch := [],
                        cap := 1, hasFn := true, stopped := true, registered := false }],
           log := [], nextId := 1 })).2.events.map (fun e => (e.next, e.registered))) =
      [(14, true)] := by
  decide

/-! ### Claim C9: synchronization-controller accounting -/

/-- Claim C9 counterexample: an unexpected NewTicker registration on a
fresh controller records two units of recent activity, not exactly
one. -/
theorem claim9_counterexample :
    Ctl.runC [Ctl.COp.regTickerOp] (Ctl.initC false) =
      some ({ expectingStarts := 0, recentTimers := 2, wgStarts := 0,
              expectingConfirms := 0, recentConfirms := 0, wgConfirms := 0,
              failFast := false, failures := 0 }) ∧
    (2 : Int) ≠ 1 := by
  decide

theorem Ctl.wgAdd_some {c delta w : Int} (h : Ctl.wgAdd c delta = some w) :
    w = c + delta ∧ 0 ≤ w := by
  unfold Ctl.wgAdd at h
  by_cases hc : c + delta < 0
  · rw [if_pos hc] at h
    simp at h
  · rw [if_neg hc] at h
    simp at h
    omega

theorem Ctl.cstep_inv (s s1 : Ctl.CState) (op : Ctl.COp)
    (hinv : Ctl.inv s) (h : Ctl.cstep s op = some s1) : Ctl.inv s1 := by
  obtain ⟨h1, h2, h3, h4, h5, h6⟩ := hinv
  cases op with
  | expectStartsOp n =>
    simp only [Ctl.cstep] at h
    unfold Ctl.expectStarts at h
    rcases hw : Ctl.wgAdd s.wgStarts (n - s.recentTimers) with _ | w <;> rw [hw] at h <;> simp at h
    rcases Ctl.wgAdd_some hw with ⟨hw1, hw2⟩
    rw [← h]
    simp [Ctl.inv]
    omega
  | expectConfirmsOp n =>
    simp only [Ctl.cstep] at h
    unfold Ctl.expectConfirms at h
    rcases hw : Ctl.wgAdd s.wgConfirms (n - s.recentConfirms) with _ | w <;> rw [hw] at h <;>
      simp at h
    rcases Ctl.wgAdd_some hw with ⟨hw1, hw2⟩
    rw [← h]
    simp [Ctl.inv]
    omega
  | regTimerOp =>
    simp only [Ctl.cstep] at h
    unfold Ctl.regTimer at h
    by_cases hgt : s.expectingStarts > 0
    · rw [if_pos hgt] at h
      rcases hw : Ctl.wgAdd s.wgStarts (-1) with _ | w <;> rw [hw] at h <;> simp at h
      rcases Ctl.wgAdd_some hw with ⟨hw1, hw2⟩
      rw [← h]
      simp [Ctl.inv]
      omega
    · rw [if_neg hgt] at h
      by_cases hff : s.failFast
      · rw [if_pos hff] at h
        simp at h
        rw [← h]
        simp [Ctl.inv]
        omega
      · rw [if_neg hff] at h
        simp at h
        rw [← h]
        simp [Ctl.inv]
        omega
  | regTickerOp =>
    simp only [Ctl.cstep] at h
    unfold Ctl.regTicker at h
    simp only at h
    by_cases hgt : s.expectingStarts > 0
    · rw [if_pos hgt] at h
      rcases hw : Ctl.wgAdd s.wgStarts (-1) with _ | w <;> rw [hw] at h <;> simp at h
      rcases Ctl.wgAdd_some hw with ⟨hw1, hw2⟩
      rw [← h]
      simp [Ctl.inv]
      omega
    · rw [if_neg hgt] at h
      by_cases hff : s.failFast
      · rw [if_pos hff] at h
        simp at h
        rw [← h]
        simp [Ctl.inv]
        omega
      · rw [if_neg hff] at h
        simp at h
        rw [← h]
        simp [Ctl.inv]
        omega
  | confirmOp =>
    simp only [Ctl.cstep] at h
    unfold Ctl.confirm at h
    by_cases hgt : s.expectingConfirms > 0
    · rw [if_pos hgt] at h
      rcases hw : Ctl.wgAdd s.wgConfirms (-1) with _ | w <;> rw [hw] at h <;> simp at h
      rcases Ctl.wgAdd_some hw with ⟨hw1, hw2⟩
      rw [← h]
      simp [Ctl.inv]
      omega
    · rw [if_neg hgt] at h
      by_cases hff : s.failFast
      · rw [if_pos hff] at h
        simp at h
        rw [← h]
        simp [Ctl.inv]
        omega
      · rw [if_neg hff] at h
        simp at h
        rw [← h]
        simp [Ctl.inv]
        omega

theorem Ctl.runC_inv : ∀ (ops : List Ctl.COp) (s s1 : Ctl.CState),
    Ctl.inv s → Ctl.runC ops s = some s1 → Ctl.inv s1 := by
  intro ops
  induction ops with
  | nil =>
    intro s s1 hinv h
    simp [Ctl.runC] at h
    rw [← h]
    exact hinv
  | cons op rest ih =>
    intro s s1 hinv h
    unfold Ctl.runC at h
    rcases hstep : Ctl.cstep s op with _ | s2 <;> rw [hstep] at h
    · simp at h
    · exact ih s2 s1 (Ctl.cstep_inv s s2 op hinv hstep) h

theorem Ctl.initC_inv (ff : Bool) : Ctl.inv (Ctl.initC ff) := by
  simp [Ctl.inv, Ctl.initC]

/-- Claim C9 (amended): in every reachable controller state the
expectation counters are non-negative (an update that would drive a
WaitGroup counter negative panics instead) and they track the WaitGroup
counters exactly; from such a state, Confirm and a NewTimer
registration either consume exactly one unit of outstanding
expectation, or report one failure to the fail-fast sink, or record
exactly one unit of recent activity; a NewTicker registration always
records one extra unit of recent activity on top of that trichotomy, so
an unexpected NewTicker records two units. -/
theorem claim9_controller_accounting (ff : Bool) (ops : List Ctl.COp) (s1 : Ctl.CState)
    (h : Ctl.runC ops (Ctl.initC ff) = some s1) :
    Ctl.inv s1 ∧
    (Ctl.confirm s1 =
      if s1.expectingConfirms > 0 then
        some ({ s1 with expectingConfirms := s1.expectingConfirms - 1,
                        wgConfirms := s1.wgConfirms - 1 })
      else if s1.failFast then some ({ s1 with failures := s1.failures + 1 })
      else some ({ s1 with recentConfirms := s1.recentConfirms + 1 })) ∧
    (Ctl.regTimer s1 =
      if s1.expectingStarts > 0 then
        some ({ s1 with expectingStarts := s1.expectingStarts - 1,
                        wgStarts := s1.wgStarts - 1 })
      else if s1.failFast then some ({ s1 with failures := s1.failures + 1 })
      else some ({ s1 with recentTimers := s1.recentTimers + 1 })) ∧
    (Ctl.regTicker s1 =
      if s1.expectingStarts > 0 then
        some ({ s1 with expectingStarts := s1.expectingStarts - 1,
                        wgStarts := s1.wgStarts - 1,
                        recentTimers := s1.recentTimers + 1 })
      else if s1.failFast then
        some ({ s1 with failures := s1.failures + 1,
                        recentTimers := s1.recentTimers + 1 })
      else some ({ s1 with recentTimers := s1.recentTimers + 2 })) := by
  have hinv := Ctl.runC_inv ops (Ctl.initC ff) s1 (Ctl.initC_inv ff) h
  obtain ⟨h1, h2, h3, h4, h5, h6⟩ := hinv
  refine ⟨⟨h1, h2, h3, h4, h5, h6⟩, ?_, ?_, ?_⟩
  · unfold Ctl.confirm
    by_cases hgt : s1.expectingConfirms > 0
    · rw [if_pos hgt, if_pos hgt]
      unfold Ctl.wgAdd
      rw [if_neg (by omega)]
      have hw : s1.wgConfirms + (-1) = s1.wgConfirms - 1 := by omega
      simp [hw]
    · rw [if_neg hgt, if_neg hgt]
  · unfold Ctl.regTimer
    by_cases hgt : s1.expectingStarts > 0
    · rw [if_pos hgt, if_pos hgt]
      unfold Ctl.wgAdd
      rw [if_neg (by omega)]
      have hw : s1.wgStarts + (-1) = s1.wgStarts - 1 := by omega
      simp [hw]
    · rw [if_neg hgt, if_neg hgt]
  · unfold Ctl.regTicker
    simp only
    by_cases hgt : s1.expectingStarts > 0
    · rw [if_pos hgt, if_pos hgt]
      unfold Ctl.wgAdd
      rw [if_neg (by omega)]
      have hw : s1.wgStarts + (-1) = s1.wgStarts - 1 := by omega
      simp [hw]
    · rw [if_neg hgt, if_neg hgt]
      by_cases hff : s1.failFast
      · rw [if_pos hff, if_pos hff]
      · rw [if_neg hff, if_neg hff]
        have hr : s1.recentTimers + 1 + 1 = s1.recentTimers + 2 := by omega
        simp [hr]

/-- Closed witness for the amended claim C9. -/
theorem claim9_witness :
    (Ctl.runC [Ctl.COp.expectStartsOp 2, Ctl.COp.regTimerOp, Ctl.COp.confirmOp]
        (Ctl.initC false) = some ({ expectingStarts := 1, recentTimers := 0, wgStarts := 1, expectingConfirms := 0, recentConfirms := 1, wgConfirms := 0, failFast := false, failures := 0 } : Ctl.CState)) ∧
    (Ctl.inv ({ expectingStarts := 1, recentTimers := 0, wgStarts := 1, expectingConfirms := 0, recentConfirms := 1, wgConfirms := 0, failFast := false, failures := 0 } : Ctl.CState) ∧
     (Ctl.confirm ({ expectingStarts := 1, recentTimers := 0, wgStarts := 1, expectingConfirms := 0, recentConfirms := 1, wgConfirms := 0, failFast := false, failures := 0 } : Ctl.CState) =
       some ({ expectingStarts := 1, recentTimers := 0, wgStarts := 1, expectingConfirms := 0, recentConfirms := 2, wgConfirms := 0, failFast := false, failures := 0 } : Ctl.CState)) ∧
     (Ctl.regTimer ({ expectingStarts := 1, recentTimers := 0, wgStarts := 1, expectingConfirms := 0, recentConfirms := 1, wgConfirms := 0, failFast := false, failures := 0 } : Ctl.CState) =
       some ({ expectingStarts := 0, recentTimers := 0, wgStarts := 0, expectingConfirms := 0, recentConfirms := 1, wgConfirms := 0, failFast := false, failures := 0 } : Ctl.CState)) ∧
     (Ctl.regTicker ({ expectingStarts := 1, recentTimers := 0, wgStarts := 1, expectingConfirms := 0, recentConfirms := 1, wgConfirms := 0, failFast := false, failures := 0 } : Ctl.CState) =
       some ({ expectingStarts := 0, recentTimers := 1, wgStarts := 0, expectingConfirms := 0, recentConfirms := 1, wgConfirms := 0, failFast := false, failures := 0 } : Ctl.CState))) :=
  ⟨by decide,
   claim9_controller_accounting false
     [Ctl.COp.expectStartsOp 2, Ctl.COp.regTimerOp, Ctl.COp.confirmOp]
     ({ expectingStarts := 1, recentTimers := 0, wgStarts := 1, expectingConfirms := 0, recentConfirms := 1, wgConfirms := 0, failFast := false, failures := 0 } : Ctl.CState) (by decide)⟩

/-! ### Claim C5: a lone ticker fires exactly once per period -/

theorem Mk.addLoop_succ (n : Nat) (target : Int) (s : MState) :
    Mk.addLoop (n + 1) target s =
      match Mk.runNextTimer target s with
      | none => some s
      | some s1 => Mk.addLoop n target s1 := rfl

theorem Mk.tickTimes_shift (j : Nat) (a p : Int) (c : Nat) :
    ({ id := j, fireAt := a, obsNow := a } : LogEntry) ::
      (List.range c).map
        (fun (i : Nat) =>
          ({ id := j, fireAt := a + p + p * (i : Int), obsNow := a + p + p * (i : Int) } : LogEntry)) =
    (List.range (c + 1)).map
      (fun (i : Nat) =>
        ({ id := j, fireAt := a + p * (i : Int), obsNow := a + p * (i : Int) } : LogEntry)) := by
  rw [List.range_succ_eq_map, List.map_cons, List.map_map]
  have hhead : ({ id := j, fireAt := a, obsNow := a } : LogEntry) =
      { id := j, fireAt := a + p * ((0 : Nat) : Int), obsNow := a + p * ((0 : Nat) : Int) } := by
    simp
  rw [hhead]
  congr 1
  refine List.map_congr_left ?_
  intro i _
  have harith : a + p + p * (i : Int) = a + p * (((i + 1 : Nat)) : Int) := by
    push_cast
    ring
  simp only [Function.comp_apply]
  rw [harith]

theorem Mk.ticker_loop (m : Nat) : ∀ (e : TEvent) (s : MState) (target : Int) (fuel : Nat),
    s.events = [e] → e.isTicker = true → e.registered = true → 0 < e.period →
    e.next ≤ target → (target - e.next).toNat = m →
    m / e.period.toNat + 1 < fuel →
    ∃ s2, Mk.addLoop fuel target s = some s2 ∧
      s2.log = s.log ++ (List.range (m / e.period.toNat + 1)).map
        (fun (i : Nat) =>
          { id := e.id, fireAt := e.next + e.period * (i : Int),
            obsNow := e.next + e.period * (i : Int) }) := by
  induction m using Nat.strong_induction_on with
  | _ m ih =>
    intro e s target fuel hev ht hreg hper hle hm hfuel
    have hptn : 0 < e.period.toNat := by omega
    have hregy : registry s = [e] := by
      simp [registry, hev, hreg]
    have hsort : sortByNext (registry s) = [e] := by
      rw [hregy]
      rfl
    have hrun : Mk.runNextTimer target s = some (Mk.fireEvent e ({ s with now := e.next })) := by
      rw [Mk.runNextTimer_cons hsort, if_neg (not_lt.mpr hle)]
    have hev1 : (Mk.fireEvent e ({ s with now := e.next })).events =
        [({ e with ch := chanTrySend e.ch e.cap e.next, next := e.next + e.period } : TEvent)] := by
      rw [Mk.fireEvent_events_ticker e _ ht]
      simp [hev, updateEvent]
    have hlog1 : (Mk.fireEvent e ({ s with now := e.next })).log =
        s.log ++ [{ id := e.id, fireAt := e.next, obsNow := e.next }] :=
      Mk.fireEvent_log e _
    cases fuel with
    | zero => exact absurd hfuel (Nat.not_lt_zero _)
    | succ n =>
      have hstep : Mk.addLoop (n + 1) target s =
          Mk.addLoop n target (Mk.fireEvent e ({ s with now := e.next })) := by
        rw [Mk.addLoop_succ, hrun]
      by_cases hc : e.next + e.period ≤ target
      · have hmge : e.period.toNat ≤ m := by omega
        have hmlt : m - e.period.toNat < m := by omega
        have hdiv : m / e.period.toNat = (m - e.period.toNat) / e.period.toNat + 1 := by
          conv_lhs => rw [← Nat.sub_add_cancel hmge]
          rw [Nat.add_div_right _ hptn]
        rcases ih (m - e.period.toNat) hmlt
            ({ e with ch := chanTrySend e.ch e.cap e.next, next := e.next + e.period })
            (Mk.fireEvent e ({ s with now := e.next })) target n
            hev1 ht hreg hper hc
            (by show (target - (e.next + e.period)).toNat = m - e.period.toNat; omega)
            (by show (m - e.period.toNat) / e.period.toNat + 1 < n; omega)
          with ⟨s2, hloop2, hlog2⟩
        simp only at hlog2
        refine ⟨s2, ?_, ?_⟩
        · rw [hstep]
          exact hloop2
        · rw [hlog2, hlog1, List.append_assoc, List.singleton_append,
             Mk.tickTimes_shift e.id e.next e.period ((m - e.period.toNat) / e.period.toNat + 1),
             hdiv]
      · have hm3 : m < e.period.toNat := by omega
        have hdiv0 : m / e.period.toNat = 0 := Nat.div_eq_of_lt hm3
        have hrun2 : Mk.runNextTimer target (Mk.fireEvent e ({ s with now := e.next })) = none := by
          have hregy2 : registry (Mk.fireEvent e ({ s with now := e.next })) =
              [({ e with ch := chanTrySend e.ch e.cap e.next,
                         next := e.next + e.period } : TEvent)] := by
            unfold registry
            rw [hev1]
            simp [hreg]
          have hsort2 : sortByNext (registry (Mk.fireEvent e ({ s with now := e.next }))) =
              [({ e with ch := chanTrySend e.ch e.cap e.next,
                         next := e.next + e.period } : TEvent)] := by
            rw [hregy2]
            rfl
          rw [Mk.runNextTimer_cons hsort2,
             if_pos (show target < ({ e with ch := chanTrySend e.ch e.cap e.next,
                                             next := e.next + e.period } : TEvent).next by
               show target < e.next + e.period
               omega)]
        cases n with
        | zero => exact absurd (Nat.lt_one_iff.mp hfuel) (Nat.succ_ne_zero _)
        | succ n2 =>
          refine ⟨Mk.fireEvent e ({ s with now := e.next }), ?_, ?_⟩
          · rw [hstep, Mk.addLoop_succ, hrun2]
          · rw [hlog1, hdiv0]
            have hone : (List.range (0 + 1)).map
                (fun (i : Nat) =>
                  ({ id := e.id, fireAt := e.next + e.period * (i : Int),
                     obsNow := e.next + e.period * (i : Int) } : LogEntry)) =
                [{ id := e.id, fireAt := e.next, obsNow := e.next }] := by
              rw [show List.range (0 + 1) = [0] from rfl]
              simp
            rw [hone]

/-- Claim C5: a Ticker with period p created on a fresh sort-based mock
and advanced by k periods in one Add fires exactly k times, the i-th
fire observing now equal to the creation time plus i times p exactly,
with the ticker re-armed and no extra fires. -/
theorem claim5_ticker_exact (p : Int) (k : Nat) (hp : 0 < p) (hk : 1 ≤ k) :
    ∃ fuel s2, Mk.mockAdd fuel (p * k) (Mk.mockTicker p initMState) = some s2 ∧
      s2.now = p * k ∧
      s2.log = (List.range k).map
        (fun (i : Nat) =>
          { id := 0, fireAt := p * ((i : Int) + 1), obsNow := p * ((i : Int) + 1) }) := by
  have hm : ((0 : Int) + p * k - (0 + p)).toNat = p.toNat * (k - 1) := by
    have h1 : (0 : Int) + p * k - (0 + p) = ((p.toNat * (k - 1) : Nat) : Int) := by
      push_cast [Nat.cast_sub hk]
      rw [Int.toNat_of_nonneg hp.le]
      ring
    rw [h1, Int.toNat_natCast]
  have hdiv : p.toNat * (k - 1) / p.toNat = k - 1 := Nat.mul_div_cancel_left _ (by omega)
  have hkz : (1 : Int) ≤ (k : Int) := by exact_mod_cast hk
  rcases Mk.ticker_loop (p.toNat * (k - 1))
      ({ id := 0, isTicker := true, next := 0 + p, period := p, ch := [], cap := 1,
         hasFn := false, stopped := false, registered := true })
      (Mk.mockTicker p initMState) ((0 : Int) + p * k) (k + 1)
      rfl rfl rfl hp
      (by show (0 : Int) + p ≤ 0 + p * k; nlinarith)
      (by show ((0 : Int) + p * k - (0 + p)).toNat = p.toNat * (k - 1); exact hm)
      (by show p.toNat * (k - 1) / p.toNat + 1 < k + 1; rw [hdiv]; omega)
    with ⟨s2, hloop, hlog⟩
  simp only at hlog
  refine ⟨k + 1, { s2 with now := (0 : Int) + p * k }, ?_, by show (0:Int) + p * k = p * k; ring, ?_⟩
  · unfold Mk.mockAdd
    rw [show (Mk.mockTicker p initMState).now = (0 : Int) from rfl, hloop]
    rfl
  · show s2.log = _
    rw [hlog, hdiv, show k - 1 + 1 = k from by omega,
       show (Mk.mockTicker p initMState).log = [] from rfl, List.nil_append]
    refine List.map_congr_left ?_
    intro i _
    have harith : (0 : Int) + p + p * (i : Int) = p * ((i : Int) + 1) := by ring
    rw [harith]

/-- Closed witness for claim C5 with p = 2, k = 3. -/
theorem claim5_witness :
    ((0 : Int) < 2 ∧ 1 ≤ 3) ∧
    (∃ fuel s2, Mk.mockAdd fuel (2 * (3 : Nat)) (Mk.mockTicker 2 initMState) = some s2 ∧
      s2.now = 2 * (3 : Nat) ∧
      s2.log = (List.range 3).map
        (fun (i : Nat) =>
          { id := 0, fireAt := 2 * ((i : Int) + 1), obsNow := 2 * ((i : Int) + 1) })) :=
  ⟨⟨by decide, by decide⟩, claim5_ticker_exact 2 3 (by decide) (by decide)⟩

/-! ### Claim C7: Stop semantics -/

theorem updateEvent_idem (evs : List TEvent) (t2 : TEvent) :
    updateEvent (updateEvent evs t2) t2 = updateEvent evs t2 := by
  unfold updateEvent
  rw [List.map_map]
  refine List.map_congr_left ?_
  intro e _
  by_cases h : e.id = t2.id <;> simp [h]

theorem find?_updateEvent_self : ∀ (evs : List TEvent) (t2 : TEvent) (i : Nat),
    t2.id = i → (∃ e ∈ evs, e.id = i) →
    (updateEvent evs t2).find? (fun x => x.id == i) = some t2 := by
  intro evs t2 i hid
  induction evs with
  | nil =>
    rintro ⟨e, he, _⟩
    exact absurd he (List.not_mem_nil e)
  | cons x xs ih =>
    rintro ⟨e, he, heid⟩
    show ((if x.id = t2.id then t2 else x) :: updateEvent xs t2).find? (fun x => x.id == i) =
      some t2
    by_cases hx : x.id = t2.id
    · rw [if_pos hx]
      rw [List.find?_cons_of_pos _ (by simp [hid])]
    · rw [if_neg hx]
      rw [List.find?_cons_of_neg _ (by simp; omega)]
      apply ih
      rcases List.mem_cons.mp he with he1 | he2
      · subst he1
        exact absurd (heid.trans hid.symm) hx
      · exact ⟨e, he2, heid⟩

theorem Mk.addLoop_no_unreg_fire : ∀ (fuel : Nat) (target : Int) (s s2 : MState) (i : Nat),
    (∀ e ∈ s.events, e.id = i → e.registered = false) →
    Mk.addLoop fuel target s = some s2 →
    (∀ en ∈ s2.log, en.id = i → en ∈ s.log) ∧
      (∀ e ∈ s2.events, e.id = i → e.registered = false) := by
  intro fuel
  induction fuel with
  | zero =>
    intro target s s2 i _ h
    exact absurd h (by simp [Mk.addLoop])
  | succ n ih =>
    intro target s s2 i hip h
    rw [Mk.addLoop_succ] at h
    rcases hrun : Mk.runNextTimer target s with _ | s1 <;> rw [hrun] at h
    · simp at h
      rw [← h]
      exact ⟨fun en hen _ => hen, hip⟩
    · rcases Mk.runNextTimer_some hrun with ⟨t, r, hs, hle, hs1⟩
      rcases Mk.head_mem_of_sort hs with ⟨htev, htreg⟩
      have htid : t.id ≠ i := by
        intro hti
        exact absurd (hip t htev hti) (by rw [htreg]; simp)
      rcases Mk.fireEvent_shape t ({ s with now := t.next }) with ⟨t2, hev2, hid2, _, _, _⟩
      have hip1 : ∀ e ∈ s1.events, e.id = i → e.registered = false := by
        intro x hx hxi
        rw [hs1, hev2] at hx
        rcases mem_updateEvent hx with hx1 | ⟨hx1, _⟩
        · subst hx1
          exact absurd (hid2.symm.trans hxi) htid
        · exact hip x hx1 hxi
      rcases ih target s1 s2 i hip1 h with ⟨hlog2, hev3⟩
      refine ⟨?_, hev3⟩
      intro en hen heni
      have hen1 := hlog2 en hen heni
      rw [hs1, Mk.fireEvent_log] at hen1
      rcases List.mem_append.mp hen1 with hen2 | hen2
      · exact hen2
      · simp at hen2
        rw [hen2] at heni
        exact absurd heni htid

theorem Mk.mockAdd_no_unreg (fuel : Nat) (d : Int) (s s2 : MState) (i : Nat)
    (hip : ∀ e ∈ s.events, e.id = i → e.registered = false)
    (h : Mk.mockAdd fuel d s = some s2) :
    (∀ en ∈ s2.log, en.id = i → en ∈ s.log) ∧
      (∀ e ∈ s2.events, e.id = i → e.registered = false) := by
  unfold Mk.mockAdd at h
  rcases hloop : Mk.addLoop fuel (s.now + d) s with _ | s3 <;> rw [hloop] at h <;> simp at h
  rcases Mk.addLoop_no_unreg_fire fuel (s.now + d) s s3 i hip hloop with ⟨h1, h2⟩
  rw [← h]
  exact ⟨h1, h2⟩

theorem Mk.addSeq_no_unreg : ∀ (ds : List (Int × Nat)) (s s2 : MState) (i : Nat),
    (∀ e ∈ s.events, e.id = i → e.registered = false) →
    Mk.addSeq ds s = some s2 →
    (∀ en ∈ s2.log, en.id = i → en ∈ s.log) ∧
      (∀ e ∈ s2.events, e.id = i → e.registered = false) := by
  intro ds
  induction ds with
  | nil =>
    intro s s2 i hip h
    simp [Mk.addSeq] at h
    rw [← h]
    exact ⟨fun en hen _ => hen, hip⟩
  | cons p rest ih =>
    intro s s2 i hip h
    rcases p with ⟨d, fuel⟩
    unfold Mk.addSeq at h
    rcases hadd : Mk.mockAdd fuel d s with _ | s1 <;> rw [hadd] at h
    · simp at h
    · rcases Mk.mockAdd_no_unreg fuel d s s1 i hip hadd with ⟨h1, h2⟩
      rcases ih s1 s2 i h2 h with ⟨h3, h4⟩
      exact ⟨fun en hen heni => h1 en (h3 en hen heni) heni, h4⟩

theorem Mk.timerStop_eq (i : Nat) (s : MState) (e : TEvent)
    (hf : s.events.find? (fun x => x.id == i) = some e) :
    Mk.timerStop i s =
      (!e.stopped,
       { s with events := updateEvent s.events ({ e with stopped := true, registered := false }) }) := by
  unfold Mk.timerStop
  rw [hf]

/-- Claim C7: Stop on a not-yet-fired mock timer returns true, removes
it so that no later sequence of Add calls ever fires it, and every
subsequent Stop returns false and leaves the state unchanged (removal
of an absent event is a silent no-op). -/
theorem claim7_stop_semantics (s : MState) (i : Nat) (e : TEvent)
    (hfind : s.events.find? (fun x => x.id == i) = some e)
    (hstopped : e.stopped = false) :
    (Mk.timerStop i s).1 = true ∧
    Mk.timerStop i (Mk.timerStop i s).2 = (false, (Mk.timerStop i s).2) ∧
    (∀ x ∈ (Mk.timerStop i s).2.events, x.id = i → x.registered = false) ∧
    (∀ ds s2, Mk.addSeq ds (Mk.timerStop i s).2 = some s2 →
      ∀ en ∈ s2.log, en.id = i → en ∈ s.log) := by
  have hemem : e ∈ s.events := List.mem_of_find?_eq_some hfind
  have heid : e.id = i := by
    have := List.find?_some hfind
    simpa using this
  have h1 := Mk.timerStop_eq i s e hfind
  have hfind2 : (updateEvent s.events ({ e with stopped := true, registered := false })).find?
      (fun x => x.id == i) = some ({ e with stopped := true, registered := false }) :=
    find?_updateEvent_self s.events ({ e with stopped := true, registered := false }) i
      (by simpa using heid) ⟨e, hemem, heid⟩
  have hunreg : ∀ x ∈ (Mk.timerStop i s).2.events, x.id = i → x.registered = false := by
    intro x hx hxi
    rw [h1] at hx
    simp only at hx
    rcases mem_updateEvent hx with hx1 | ⟨hx1, hx2⟩
    · rw [hx1]
    · exact absurd (by simpa using hxi ▸ heid.symm) hx2
  refine ⟨?_, ?_, hunreg, ?_⟩
  · rw [h1, hstopped]
    rfl
  · rw [h1]
    simp only
    rw [Mk.timerStop_eq i
      ({ s with events := updateEvent s.events ({ e with stopped := true, registered := false }) })
      ({ e with stopped := true, registered := false }) hfind2]
    simp [updateEvent_idem]
  · intro ds s2 hseq en hen heni
    have hmain := (Mk.addSeq_no_unreg ds (Mk.timerStop i s).2 s2 i hunreg hseq).1 en hen heni
    rw [h1] at hmain
    exact hmain

/-- Closed witness for claim C7 on a fresh mock with one 10-unit
timer. -/
theorem claim7_witness :
    ((Mk.mockTimer 10 initMState).events.find? (fun x => x.id == 0) =
      some ({ id := 0, isTicker := false, next := 10, period := 0, ch := [], cap := 1,
              hasFn := false, stopped := false, registered := true }) ∧
     ({ id := 0, isTicker := false, next := 10, period := 0, ch := [], cap := 1,
        hasFn := false, stopped := false, registered := true } : TEvent).stopped = false) ∧
    ((Mk.timerStop 0 (Mk.mockTimer 10 initMState)).1 = true ∧
     Mk.timerStop 0 (Mk.timerStop 0 (Mk.mockTimer 10 initMState)).2 =
       (false, (Mk.timerStop 0 (Mk.mockTimer 10 initMState)).2) ∧
     (∀ x ∈ (Mk.timerStop 0 (Mk.mockTimer 10 initMState)).2.events,
        x.id = 0 → x.registered = false) ∧
     (∀ ds s2, Mk.addSeq ds (Mk.timerStop 0 (Mk.mockTimer 10 initMState)).2 = some s2 →
        ∀ en ∈ s2.log, en.id = 0 → en ∈ (Mk.mockTimer 10 initMState).log)) :=
  ⟨⟨by decide, by decide⟩,
   claim7_stop_semantics (Mk.mockTimer 10 initMState) 0
     ({ id := 0, isTicker := false, next := 10, period := 0, ch := [], cap := 1,
        hasFn := false, stopped := false, registered := true }) (by decide) (by decide)⟩

/-! ### Claim C10: zero-or-negative-duration timers -/

theorem P3.nextTimer_cons {mx : Int} {s : MState} {t : TEvent} {r : List TEvent}
    (hs : sortByNext (registry s) = t :: r) :
    P3.runNextTimer mx s =
      if mx < t.next then P3.ROut.exitLoop
      else
        match P3.fireEvent t ({ s with now := t.next }) with
        | some s1 => P3.ROut.fired s1
        | none => P3.ROut.blocked := by
  unfold P3.runNextTimer
  rw [hs]

theorem P3.runNextTimer_fired {mx : Int} {s s1 : MState}
    (h : P3.runNextTimer mx s = P3.ROut.fired s1) :
    ∃ t r, sortByNext (registry s) = t :: r ∧ t.next ≤ mx ∧
      P3.fireEvent t ({ s with now := t.next }) = some s1 := by
  rcases hs : sortByNext (registry s) with _ | ⟨t, r⟩
  · unfold P3.runNextTimer at h
    rw [hs] at h
    exact absurd h (by simp)
  · rw [P3.nextTimer_cons hs] at h
    by_cases hlt : mx < t.next
    · rw [if_pos hlt] at h
      exact absurd h (by simp)
    · rw [if_neg hlt] at h
      rcases hf : P3.fireEvent t ({ s with now := t.next }) with _ | s3 <;> rw [hf] at h
      · exact absurd h (by simp)
      · simp at h
        exact ⟨t, r, rfl, le_of_not_lt hlt, by rw [hf, h]⟩

theorem P3.fireEvent_some {t : TEvent} {u s1 : MState} (h : P3.fireEvent t u = some s1) :
    s1.log = u.log ++ [{ id := t.id, fireAt := t.next, obsNow := u.now }] ∧
    ∃ t2 : TEvent, s1.events = updateEvent u.events t2 ∧ t2.id = t.id := by
  unfold P3.fireEvent at h
  by_cases ht : t.isTicker = true
  · rw [if_pos ht] at h
    by_cases hc : t.ch.length < t.cap
    · rw [if_pos hc] at h
      simp at h
      rw [← h]
      exact ⟨rfl, _, rfl, rfl⟩
    · rw [if_neg hc] at h
      exact absurd h (by simp)
  · rw [if_neg ht] at h
    by_cases hc : t.hasFn = true ∨ t.ch.length < t.cap
    · rw [if_pos hc] at h
      simp at h
      rw [← h]
      exact ⟨rfl, _, rfl, rfl⟩
    · rw [if_neg hc] at h
      exact absurd h (by simp)

theorem P3.loop_succ_eq (n : Nat) (target : Int) (s : MState) :
    P3.addLoop (n + 1) target s =
      match P3.runNextTimer target s with
      | .exitLoop => some s
      | .blocked => none
      | .fired s1 => P3.addLoop n target s1 := rfl

theorem P3.loop_no_unreg_fire : ∀ (fuel : Nat) (target : Int) (s s2 : MState) (i : Nat),
    (∀ e ∈ s.events, e.id = i → e.registered = false) →
    P3.addLoop fuel target s = some s2 →
    (∀ en ∈ s2.log, en.id = i → en ∈ s.log) ∧
      (∀ e ∈ s2.events, e.id = i → e.registered = false) := by
  intro fuel
  induction fuel with
  | zero =>
    intro target s s2 i _ h
    exact absurd h (by simp [P3.addLoop])
  | succ n ih =>
    intro target s s2 i hip h
    rw [P3.loop_succ_eq] at h
    rcases hrun : P3.runNextTimer target s with _ | _ | s1 <;> rw [hrun] at h
    · simp at h
      rw [← h]
      exact ⟨fun en hen _ => hen, hip⟩
    · exact absurd h (by simp)
    · rcases P3.runNextTimer_fired hrun with ⟨t, r, hs, hle, hfire⟩
      rcases Mk.head_mem_of_sort hs with ⟨htev, htreg⟩
      have htid : t.id ≠ i := by
        intro hti
        exact absurd (hip t htev hti) (by rw [htreg]; simp)
      rcases P3.fireEvent_some hfire with ⟨hlog1, t2, hev2, hid2⟩
      have hip1 : ∀ e ∈ s1.events, e.id = i → e.registered = false := by
        intro x hx hxi
        rw [hev2] at hx
        rcases mem_updateEvent hx with hx1 | ⟨hx1, _⟩
        · subst hx1
          exact absurd (hid2.symm.trans hxi) htid
        · exact hip x hx1 hxi
      rcases ih target s1 s2 i hip1 h with ⟨hlog2, hev3⟩
      refine ⟨?_, hev3⟩
      intro en hen heni
      have hen1 := hlog2 en hen heni
      rw [hlog1] at hen1
      rcases List.mem_append.mp hen1 with hen2 | hen2
      · exact hen2
      · simp at hen2
        rw [hen2] at heni
        exact absurd heni htid

theorem P3.timerNew_nonpos (d : Int) (s : MState) (hd : d ≤ 0) :
    P3.timerNew d s =
      { s with
        events := s.events ++
          [{ id := s.nextId, isTicker := false, next := s.now + d, period := 0,
             ch := [s.now], cap := 1, hasFn := false, stopped := false,
             registered := false }],
        nextId := s.nextId + 1 } := by
  unfold P3.timerNew
  rw [if_pos (by omega)]

/-- Claim C10: in the hook-based variant, a Timer with d at most 0
delivers the current time on its channel immediately at creation and is
never put into the registry, so no later Add produces a fire entry for
it; in the sort-based variant the same timer is registered instead and
a fire entry for it appears on the next non-negative advance. -/
theorem claim10_nonpos_timer (s : MState) (d dlt : Int) (fuel : Nat) (hd : d ≤ 0)
    (hfresh : ∀ e ∈ s.events, e.id ≠ s.nextId) :
    ((P3.timerNew d s).events =
       s.events ++ [{ id := s.nextId, isTicker := false, next := s.now + d, period := 0,
                      ch := [s.now], cap := 1, hasFn := false, stopped := false,
                      registered := false }]) ∧
    (∀ s2, P3.mockAdd fuel dlt (P3.timerNew d s) = some s2 →
       ∀ en ∈ s2.log, en.id = s.nextId → en ∈ s.log) ∧
    ((Mk.mockTimer d s).events =
       s.events ++ [{ id := s.nextId, isTicker := false, next := s.now + d, period := 0,
                      ch := [], cap := 1, hasFn := false, stopped := false,
                      registered := true }]) ∧
    (Mk.idsNodup s → Mk.idsBounded s → Mk.tickersPosReg s → 0 ≤ dlt →
      ∃ fuel2 s2 dlog, Mk.mockAdd fuel2 dlt (Mk.mockTimer d s) = some s2 ∧
        s2.log = (Mk.mockTimer d s).log ++ dlog ∧ ∃ en ∈ dlog, en.id = s.nextId) := by
  have hP3 := P3.timerNew_nonpos d s hd
  refine ⟨by rw [hP3], ?_, rfl, ?_⟩
  · intro s2 hadd en hen heni
    have hip : ∀ e ∈ (P3.timerNew d s).events, e.id = s.nextId → e.registered = false := by
      intro x hx hxi
      rw [hP3] at hx
      simp only at hx
      rcases List.mem_append.mp hx with hx1 | hx1
      · exact absurd hxi (hfresh x hx1)
      · simp at hx1
        rw [hx1]
    unfold P3.mockAdd at hadd
    by_cases hneg : dlt < 0
    · rw [if_pos hneg] at hadd
      exact absurd hadd (by simp)
    · rw [if_neg hneg] at hadd
      rcases hloop : P3.addLoop fuel ((P3.timerNew d s).now + dlt) (P3.timerNew d s)
          with _ | s3 <;> rw [hloop] at hadd <;> simp at hadd
      have hmain := (P3.loop_no_unreg_fire fuel ((P3.timerNew d s).now + dlt)
        (P3.timerNew d s) s3 s.nextId hip hloop).1 en (by rw [← hadd] at hen; exact hen) heni
      rw [hP3] at hmain
      exact hmain
  · intro hnd hb hpos hdlt
    have heq : Mk.mockTimer d s = Mk.applyCreate s (Mk.CreateOp.timer d) := rfl
    rcases Mk.applyCreate_nodup s (Mk.CreateOp.timer d) hnd hb with ⟨hnd1, hb1⟩
    have hpos1 := Mk.applyCreate_pos s (Mk.CreateOp.timer d) hpos rfl
    rw [← heq] at hnd1 hb1 hpos1
    set target := (Mk.mockTimer d s).now + dlt with htarget
    rcases Mk.addLoop_total_fires (Mk.measureS target (Mk.mockTimer d s) + 1) target
        (Mk.mockTimer d s) (by omega) hnd1 hpos1 with ⟨s2, dlog, hloop, hlog, hiff⟩
    have hnew : ({ id := s.nextId, isTicker := false, next := s.now + d, period := 0,
                   ch := [], cap := 1, hasFn := false, stopped := false,
                   registered := true } : TEvent) ∈ (Mk.mockTimer d s).events := by
      show _ ∈ s.events ++ [_]
      exact List.mem_append.mpr (Or.inr (by simp))
    have hfires := (hiff _ hnew rfl).mpr (by
      show s.now + d ≤ target
      rw [htarget]
      show s.now + d ≤ s.now + dlt
      omega)
    refine ⟨Mk.measureS target (Mk.mockTimer d s) + 1, { s2 with now := target }, dlog, ?_, hlog, ?_⟩
    · unfold Mk.mockAdd
      rw [← htarget, hloop]
      rfl
    · rcases hfires with ⟨en, hen, henid⟩
      exact ⟨en, hen, henid⟩

/-- Closed witness for claim C10 with d = -3 and an advance of 5 on a
fresh mock. -/
theorem claim10_witness :
    ((-3 : Int) ≤ 0 ∧ ∀ e ∈ initMState.events, e.id ≠ initMState.nextId) ∧
    (((P3.timerNew (-3) initMState).events =
       initMState.events ++
         [{ id := initMState.nextId, isTicker := false, next := initMState.now + (-3),
            period := 0, ch := [initMState.now], cap := 1, hasFn := false, stopped := false,
            registered := false }]) ∧
    (∀ s2, P3.mockAdd 4 5 (P3.timerNew (-3) initMState) = some s2 →
       ∀ en ∈ s2.log, en.id = initMState.nextId → en ∈ initMState.log) ∧
    ((Mk.mockTimer (-3) initMState).events =
       initMState.events ++
         [{ id := initMState.nextId, isTicker := false, next := initMState.now + (-3),
            period := 0, ch := [], cap := 1, hasFn := false, stopped := false,
            registered := true }]) ∧
    (Mk.idsNodup initMState → Mk.idsBounded initMState → Mk.tickersPosReg initMState →
      (0 : Int) ≤ 5 →
      ∃ fuel2 s2 dlog, Mk.mockAdd fuel2 5 (Mk.mockTimer (-3) initMState) = some s2 ∧
        s2.log = (Mk.mockTimer (-3) initMState).log ++ dlog ∧
        ∃ en ∈ dlog, en.id = initMState.nextId)) :=
  ⟨⟨by decide, by decide⟩,
   claim10_nonpos_timer initMState (-3) 5 4 (by decide) (by decide)⟩

end ClockSpec
